import Mathlib

/-!
# s3-upload-cleaner: a shallow embedding of `cleaner.go` and `main.go`

The cleaner talks to an S3 endpoint through six SDK operations and reads the
wall clock.  The embedding threads an abstract environment state `σ` through
every such interaction, so a response may depend on everything that happened
before it, and it collects the interactions (request together with response)
in the order in which the Go code issues them.

Conventions of the embedding:

* SDK pointer fields that the code passes through `aws.StringValue`,
  `aws.BoolValue` or `aws.TimeValue` are plain values; the `Key` and `UploadId`
  fields of listed items are assumed present (as the SDK delivers them) and are
  plain strings; request fields that the code may leave `nil` are `Option`s.
* a `time.Time` is an integer count of nanoseconds on the time line, a
  `time.Duration` a count of nanoseconds in the `int64` range.
* the three unbounded `for` loops take a fuel argument, one unit per page
  request; `Outcome.outOfFuel` is the result of a loop that has not finished.
* a Go `panic` is the outcome `Outcome.panicked`; nothing runs after it.
* `fmt.Printf` output is not modelled.
-/

namespace S3UploadCleaner

/-! ## Constants of `main.go` -/

/-- Constant `cleanupHours = 12`. -/
def cleanupHours : Int := 12

/-- Constant `startedadDateFormat = "2006-01-02T15:04:05Z"`. -/
def startedadDateFormat : String := "2006-01-02T15:04:05Z"

/-! ## Strings (package `strings`), on the character list of a string -/

/-- Substring test on character lists. -/
def containsChars (sub : List Char) : List Char → Bool
  | [] => sub.isEmpty
  | c :: cs => sub.isPrefixOf (c :: cs) || containsChars sub cs

/-- Go `strings.Contains(s, substr)`. -/
def stringsContains (s substr : String) : Bool := containsChars substr.data s.data

/-- Go `strings.HasSuffix(s, suffix)`. -/
def stringsHasSuffix (s suffix : String) : Bool := suffix.data.isSuffixOf s.data

/-- Go `strings.HasPrefix(s, prefix)`. -/
def stringsHasPrefix (s pre : String) : Bool := pre.data.isPrefixOf s.data

/-- Splitting a character list at every occurrence of a one-character
separator; the result is never empty and has one more part than there are
separators. -/
def splitChars (sep : Char) : List Char → List (List Char)
  | [] => [[]]
  | c :: cs =>
    if c = sep then [] :: splitChars sep cs
    else
      match splitChars sep cs with
      | [] => [[c]]
      | p :: ps => (c :: p) :: ps

/-- Go `strings.Split(s, sep)` for a separator of one character. -/
def stringsSplit (s : String) (sep : Char) : List String :=
  (splitChars sep s.data).map String.mk

/-- Go `strings.Join(elems, sep)`. -/
def stringsJoin (elems : List String) (sep : String) : String :=
  String.mk (List.intercalate sep.data (elems.map String.data))

/-! ## Time (package `time`) -/

/-- Go `time.Hour` in nanoseconds. -/
def hour : Int := 3600000000000

/-- The largest `time.Duration`. -/
def maxDuration : Int := 9223372036854775807

/-- The smallest `time.Duration`. -/
def minDuration : Int := -9223372036854775808

/-- Go `t.Sub(u)`: the difference `t - u`, saturated to the `int64` range of a
duration. -/
def timeSub (t u : Int) : Int :=
  if t - u < minDuration then minDuration
  else if maxDuration < t - u then maxDuration
  else t - u

/-- Go `int(d.Hours())`.  `Hours` is `float64(d / Hour) + float64(d % Hour) / 3.6e12`
and the conversion truncates toward zero.  The quotient truncated toward zero
is the same integer whenever the sum is not rounded up to the next whole
hour, which needs an age of at least 4096 hours; in particular both agree on
whether the result exceeds `cleanupHours`. -/
def durationHours (d : Int) : Int := Int.tdiv d hour

/-- Go `int(time.Since(t).Hours())` for the clock reading `now`. -/
def hoursBetween (now t : Int) : Int := durationHours (timeSub now t)

/-! ## The SDK requests and responses the cleaner uses -/

/-- An error value; `errors.Wrap` prefixes its message. -/
abbrev Err := String

/-- Go `errors.Wrap(err, msg)`. -/
def wrap (e : Err) (msg : String) : Err := msg ++ ": " ++ e

deriving instance DecidableEq for Except

/-- The fields of `s3.ListObjectsInput` the cleaner sets. -/
structure ListObjectsInput where
  Bucket : String
  Prefix : String
  Delimiter : String
  Marker : Option String
  MaxKeys : Int
  deriving DecidableEq, Repr

/-- A listed object (`s3.Object`): its key. -/
structure Object where
  Key : String
  deriving DecidableEq, Repr

/-- The fields of `s3.ListObjectsOutput` the cleaner reads. -/
structure ListObjectsOutput where
  CommonPrefixes : List String
  Contents : List Object
  IsTruncated : Bool
  Prefix : String
  deriving DecidableEq, Repr

/-- The fields of `s3.ListMultipartUploadsInput` the cleaner sets. -/
structure ListMultipartUploadsInput where
  Bucket : String
  Prefix : String
  MaxUploads : Int
  KeyMarker : Option String
  UploadIdMarker : Option String
  deriving DecidableEq, Repr

/-- A listed in-flight upload (`s3.MultipartUpload`). -/
structure MultipartUpload where
  Key : String
  UploadId : String
  Initiated : Int
  deriving DecidableEq, Repr

/-- The fields of `s3.ListMultipartUploadsOutput` the cleaner reads. -/
structure ListMultipartUploadsOutput where
  Uploads : List MultipartUpload
  IsTruncated : Bool
  deriving DecidableEq, Repr

/-- The fields of `s3.AbortMultipartUploadInput` the cleaner sets. -/
structure AbortMultipartUploadInput where
  Bucket : String
  Key : String
  UploadId : String
  deriving DecidableEq, Repr

/-- The fields of `s3.ListObjectsV2Input` the cleaner sets. -/
structure ListObjectsV2Input where
  Bucket : String
  Prefix : String
  MaxKeys : Option Int
  ContinuationToken : Option String
  deriving DecidableEq, Repr

/-- The fields of `s3.ListObjectsV2Output` the cleaner reads. -/
structure ListObjectsV2Output where
  Contents : List Object
  NextContinuationToken : Option String
  IsTruncated : Bool
  deriving DecidableEq, Repr

/-- The fields of `s3.GetObjectInput` the cleaner sets. -/
structure GetObjectInput where
  Bucket : String
  Key : String
  deriving DecidableEq, Repr

/-- The fields of `s3.DeleteObjectInput` the cleaner sets. -/
structure DeleteObjectInput where
  Bucket : String
  Key : String
  deriving DecidableEq, Repr

/-- The body of a fetched object as `buf.ReadFrom` sees it: all its bytes, or
a read error. -/
abbrev Body := Except Err String

/-- One interaction with the endpoint: the request and what came back. -/
inductive Event where
  | listObjects (inp : ListObjectsInput) (out : Except Err ListObjectsOutput)
  | listMultipartUploads (inp : ListMultipartUploadsInput)
      (out : Except Err ListMultipartUploadsOutput)
  | abortMultipartUpload (inp : AbortMultipartUploadInput) (out : Except Err Unit)
  | listObjectsV2 (inp : ListObjectsV2Input) (out : Except Err ListObjectsV2Output)
  | getObject (inp : GetObjectInput) (out : Except Err Body)
  | deleteObject (inp : DeleteObjectInput) (out : Except Err Unit)
  deriving DecidableEq

/-- The S3 client (`*s3.S3`) as the cleaner consumes it.  Every operation
reads and advances the environment state. -/
structure S3 (σ : Type) where
  ListObjects : ListObjectsInput → σ → Except Err ListObjectsOutput × σ
  ListMultipartUploads :
    ListMultipartUploadsInput → σ → Except Err ListMultipartUploadsOutput × σ
  AbortMultipartUpload : AbortMultipartUploadInput → σ → Except Err Unit × σ
  ListObjectsV2 : ListObjectsV2Input → σ → Except Err ListObjectsV2Output × σ
  GetObject : GetObjectInput → σ → Except Err Body × σ
  DeleteObject : DeleteObjectInput → σ → Except Err Unit × σ

/-- Package `time` as the cleaner consumes it: `time.Now`, which reads and
advances the environment, and `time.Parse layout value`.  The states `σ` are
the situations the clock and the endpoint can be in. -/
structure Time (σ : Type) where
  Now : σ → Int × σ
  Parse : String → String → Except Err Int

/-- The struct `S3Cleaner`. -/
structure S3Cleaner (σ : Type) where
  s3 : S3 σ
  bucket : String
  dryRun : Bool

/-- How a call ends: a returned value, a returned error, a panic, or a loop
that has used up its fuel. -/
inductive Outcome (α : Type) where
  | ok (a : α)
  | error (e : Err)
  | panicked (e : Err)
  | outOfFuel
  deriving DecidableEq

/-- What a call leaves behind: its outcome, the environment after it and the
interactions it performed, oldest first. -/
structure Result (σ α : Type) where
  out : Outcome α
  world : σ
  calls : List Event

/-- The interactions `pre` happened first, then those of `r`. -/
def Result.after {σ α : Type} (pre : List Event) (r : Result σ α) : Result σ α :=
  { r with calls := pre ++ r.calls }

/-! ## `cleaner.go` -/

variable {σ : Type}

/-- The body of `for i, multi := range resp.Uploads` in `cleanMPUs`
(lines 107-130), with the running `totalRemoved`. -/
def cleanMPUsPage (tm : Time σ) (c : S3Cleaner σ) :
    List MultipartUpload → Nat → σ → Nat × σ × List Event
  | [], totalRemoved, w => (totalRemoved, w, [])
  | multi :: rest, totalRemoved, w =>
    let (now, w1) := tm.Now w
    let hoursSince := hoursBetween now multi.Initiated
    if hoursSince > cleanupHours then
      if !c.dryRun then
        let inp : AbortMultipartUploadInput :=
          { Bucket := c.bucket, Key := multi.Key, UploadId := multi.UploadId }
        let (res, w2) := c.s3.AbortMultipartUpload inp w1
        match res with
        | .error e =>
          let (n, w3, evs) := cleanMPUsPage tm c rest totalRemoved w2
          (n, w3, Event.abortMultipartUpload inp (.error e) :: evs)
        | .ok u =>
          let (n, w3, evs) := cleanMPUsPage tm c rest (totalRemoved + 1) w2
          (n, w3, Event.abortMultipartUpload inp (.ok u) :: evs)
      else cleanMPUsPage tm c rest totalRemoved w1
    else cleanMPUsPage tm c rest totalRemoved w1

/-- The `for` loop of `cleanMPUs` (lines 92-138): one iteration per unit of
fuel. -/
def cleanMPUsLoop (tm : Time σ) (c : S3Cleaner σ) (pfx : String) :
    Nat → Nat → Option String → Option String → σ → Result σ Nat
  | 0, _, _, _, w => ⟨.outOfFuel, w, []⟩
  | fuel + 1, totalRemoved, keyMarker, uploadIDMarker, w =>
    let inp : ListMultipartUploadsInput :=
      { Bucket := c.bucket, Prefix := pfx, MaxUploads := 1000,
        KeyMarker := keyMarker, UploadIdMarker := uploadIDMarker }
    let (res, w1) := c.s3.ListMultipartUploads inp w
    match res with
    | .error e =>
      ⟨.error (wrap e "failed to list multipart uploads"), w1,
        [Event.listMultipartUploads inp (.error e)]⟩
    | .ok resp =>
      let (n, w2, evs) := cleanMPUsPage tm c resp.Uploads totalRemoved w1
      let here := Event.listMultipartUploads inp (.ok resp) :: evs
      if resp.IsTruncated && decide (resp.Uploads.length > 0) then
        match resp.Uploads.getLast? with
        | some l =>
          (cleanMPUsLoop tm c pfx fuel n (some l.Key) (some l.UploadId) w2).after here
        | none => ⟨.ok n, w2, here⟩
      else ⟨.ok n, w2, here⟩

/-- Method `func (c *S3Cleaner) cleanMPUs(prefix string) (int, error)`. -/
def cleanMPUs (tm : Time σ) (c : S3Cleaner σ) (pfx : String) (fuel : Nat) (w : σ) :
    Result σ Nat :=
  cleanMPUsLoop tm c pfx fuel 0 none none w

/-- Function `func parseTimeFromStream(s io.Reader) (time.Time, error)`: read the whole
stream, then `time.Parse(startedadDateFormat, dateString)`. -/
def parseTimeFromStream (tm : Time σ) (s : Body) : Except Err Int :=
  match s with
  | .error e => .error e
  | .ok dateString => tm.Parse startedadDateFormat dateString

/-- Method `func (c *S3Cleaner) hoursSinceUploadStarted(key string) (int, error)`:
a failed `GetObject` is returned as an error, a body that does not parse makes
the function panic. -/
def hoursSinceUploadStarted (tm : Time σ) (c : S3Cleaner σ) (key : String) (w : σ) :
    Result σ Int :=
  let inp : GetObjectInput := { Bucket := c.bucket, Key := key }
  let (res, w1) := c.s3.GetObject inp w
  match res with
  | .error e => ⟨.error e, w1, [Event.getObject inp (.error e)]⟩
  | .ok body =>
    match parseTimeFromStream tm body with
    | .error e => ⟨.panicked e, w1, [Event.getObject inp (.ok body)]⟩
    | .ok t =>
      let (now, w2) := tm.Now w1
      ⟨.ok (hoursBetween now t), w2, [Event.getObject inp (.ok body)]⟩

/-- The folder name `removeUploadFolder` derives from a key (lines 183-184):
`strings.Join(keyParts[0:len(keyParts)-1], "/")` for
`keyParts := strings.Split(prefix, "/")`. -/
def uploadsFolder (key : String) : String :=
  let keyParts := stringsSplit key '/'
  stringsJoin (keyParts.take (keyParts.length - 1)) "/"

/-- The body of `for _, o := range objs.Contents` in `removeUploadFolder`
(lines 195-208). -/
def removeUploadFolderObjects (c : S3Cleaner σ) : List Object → σ → Result σ Unit
  | [], w => ⟨.ok (), w, []⟩
  | o :: rest, w =>
    if !c.dryRun then
      let inp : DeleteObjectInput := { Bucket := c.bucket, Key := o.Key }
      let (res, w1) := c.s3.DeleteObject inp w
      match res with
      | .error e =>
        ⟨.error (wrap e ("failed to delete object " ++ o.Key)), w1,
          [Event.deleteObject inp (.error e)]⟩
      | .ok u =>
        (removeUploadFolderObjects c rest w1).after [Event.deleteObject inp (.ok u)]
    else removeUploadFolderObjects c rest w

/-- Method `func (c *S3Cleaner) removeUploadFolder(prefix string) error`: one
`ListObjectsV2` request without `MaxKeys` and without a continuation token,
then the deletions. -/
def removeUploadFolder (c : S3Cleaner σ) (pfx : String) (w : σ) : Result σ Unit :=
  let inp : ListObjectsV2Input :=
    { Bucket := c.bucket, Prefix := uploadsFolder pfx, MaxKeys := none,
      ContinuationToken := none }
  let (res, w1) := c.s3.ListObjectsV2 inp w
  match res with
  | .error e =>
    ⟨.error (wrap e ("failed to list objects for prefix " ++ uploadsFolder pfx)), w1,
      [Event.listObjectsV2 inp (.error e)]⟩
  | .ok objs =>
    (removeUploadFolderObjects c objs.Contents w1).after [Event.listObjectsV2 inp (.ok objs)]

/-- The test of line 157 that makes a listed key an upload-session marker. -/
def isStartedAtKey (key : String) : Bool :=
  stringsContains key "/_uploads/" && stringsHasSuffix key "/startedat"

/-- The body of `for _, o := range objs.Contents` in `cleanUploadFolders`
(lines 156-173). -/
def cleanUploadFoldersPage (tm : Time σ) (c : S3Cleaner σ) :
    List Object → σ → Result σ Unit
  | [], w => ⟨.ok (), w, []⟩
  | o :: rest, w =>
    if isStartedAtKey o.Key then
      let r := hoursSinceUploadStarted tm c o.Key w
      match r.out with
      | .error _ => (cleanUploadFoldersPage tm c rest r.world).after r.calls
      | .panicked e => ⟨.panicked e, r.world, r.calls⟩
      | .outOfFuel => ⟨.outOfFuel, r.world, r.calls⟩
      | .ok hoursSince =>
        if hoursSince > cleanupHours then
          let r2 := removeUploadFolder c o.Key r.world
          match r2.out with
          | .ok _ => (cleanUploadFoldersPage tm c rest r2.world).after (r.calls ++ r2.calls)
          | .error e =>
            ⟨.error (wrap e "failed to remove upload folder"), r2.world, r.calls ++ r2.calls⟩
          | .panicked e => ⟨.panicked e, r2.world, r.calls ++ r2.calls⟩
          | .outOfFuel => ⟨.outOfFuel, r2.world, r.calls ++ r2.calls⟩
        else (cleanUploadFoldersPage tm c rest r.world).after r.calls
    else cleanUploadFoldersPage tm c rest w

/-- The `for shouldContinue` loop of `cleanUploadFolders` (lines 144-177): one
iteration per unit of fuel. -/
def cleanUploadFoldersLoop (tm : Time σ) (c : S3Cleaner σ) (pfx : String) :
    Nat → Option String → σ → Result σ Unit
  | 0, _, w => ⟨.outOfFuel, w, []⟩
  | fuel + 1, continuationToken, w =>
    let inp : ListObjectsV2Input :=
      { Bucket := c.bucket, Prefix := pfx, MaxKeys := some 100,
        ContinuationToken := continuationToken }
    let (res, w1) := c.s3.ListObjectsV2 inp w
    match res with
    | .error e =>
      ⟨.error (wrap e ("failed to list objects for prefix " ++ pfx)), w1,
        [Event.listObjectsV2 inp (.error e)]⟩
    | .ok objs =>
      let r := cleanUploadFoldersPage tm c objs.Contents w1
      let here := Event.listObjectsV2 inp (.ok objs) :: r.calls
      match r.out with
      | .ok _ =>
        if objs.IsTruncated then
          (cleanUploadFoldersLoop tm c pfx fuel objs.NextContinuationToken r.world).after here
        else ⟨.ok (), r.world, here⟩
      | .error e => ⟨.error e, r.world, here⟩
      | .panicked e => ⟨.panicked e, r.world, here⟩
      | .outOfFuel => ⟨.outOfFuel, r.world, here⟩

/-- Method `func (c *S3Cleaner) cleanUploadFolders(prefix string) error`. -/
def cleanUploadFolders (tm : Time σ) (c : S3Cleaner σ) (pfx : String) (fuel : Nat)
    (w : σ) : Result σ Unit :=
  cleanUploadFoldersLoop tm c pfx fuel none w

/-- The body of `for i, cp := range objs.CommonPrefixes` in
`CleanMultipartUploads` (lines 59-69), with the running `totalRemoved`. -/
def cleanCommonPrefixes (tm : Time σ) (c : S3Cleaner σ) (fuel : Nat) :
    List String → Nat → σ → Result σ Nat
  | [], totalRemoved, w => ⟨.ok totalRemoved, w, []⟩
  | cp :: rest, totalRemoved, w =>
    let r := cleanMPUs tm c cp fuel w
    match r.out with
    | .ok removed =>
      (cleanCommonPrefixes tm c fuel rest (totalRemoved + removed) r.world).after r.calls
    | .error e =>
      ⟨.error (wrap e ("failed to remove multipart uploads for prefix " ++ cp)),
        r.world, r.calls⟩
    | .panicked e => ⟨.panicked e, r.world, r.calls⟩
    | .outOfFuel => ⟨.outOfFuel, r.world, r.calls⟩

/-- The root under which the registry keeps its repositories (line 49). -/
def repositoriesRoot : String := "docker/registry/v2/repositories/"

/-- The `for` loop of `CleanMultipartUploads` (lines 46-82): one iteration per
unit of fuel; the same fuel bounds each inner loop. -/
def cleanMultipartUploadsLoop (tm : Time σ) (c : S3Cleaner σ) (fuel : Nat) :
    Nat → Nat → Option String → σ → Result σ Unit
  | 0, _, _, w => ⟨.outOfFuel, w, []⟩
  | n + 1, totalRemoved, marker, w =>
    let inp : ListObjectsInput :=
      { Bucket := c.bucket, Prefix := repositoriesRoot, Delimiter := "/",
        Marker := marker, MaxKeys := 100 }
    let (res, w1) := c.s3.ListObjects inp w
    match res with
    | .error e =>
      ⟨.error (wrap e "failed to list objects"), w1, [Event.listObjects inp (.error e)]⟩
    | .ok objs =>
      let r := cleanCommonPrefixes tm c fuel objs.CommonPrefixes totalRemoved w1
      let here := Event.listObjects inp (.ok objs) :: r.calls
      match r.out with
      | .error e => ⟨.error e, r.world, here⟩
      | .panicked e => ⟨.panicked e, r.world, here⟩
      | .outOfFuel => ⟨.outOfFuel, r.world, here⟩
      | .ok total =>
        let r2 := cleanUploadFolders tm c objs.Prefix fuel r.world
        let here2 := here ++ r2.calls
        match r2.out with
        | .error e =>
          ⟨.error (wrap e ("failed to clean upload folders for prefix " ++ objs.Prefix)),
            r2.world, here2⟩
        | .panicked e => ⟨.panicked e, r2.world, here2⟩
        | .outOfFuel => ⟨.outOfFuel, r2.world, here2⟩
        | .ok _ =>
          if objs.IsTruncated && decide (objs.Contents.length > 0) then
            match objs.Contents.getLast? with
            | some l =>
              (cleanMultipartUploadsLoop tm c fuel n total (some l.Key) r2.world).after here2
            | none => ⟨.ok (), r2.world, here2⟩
          else ⟨.ok (), r2.world, here2⟩

/-- Method `func (c *S3Cleaner) CleanMultipartUploads() error`. -/
def CleanMultipartUploads (tm : Time σ) (c : S3Cleaner σ) (fuel : Nat) (w : σ) :
    Result σ Unit :=
  cleanMultipartUploadsLoop tm c fuel fuel 0 none w

/-! ## A simulated endpoint

An executable environment for concrete scenarios: a bucket of objects and
in-flight multipart uploads in key order, and the requests the endpoint
refuses.  The clock of a scenario stands still at a given time. -/

/-- The simulated environment. -/
structure Bucket where
  /-- the objects, in key order, each with what reading its body gives -/
  objects : List (String × Body)
  /-- the in-flight multipart uploads, in (key, upload id) order -/
  uploads : List MultipartUpload
  /-- upload ids whose abort the endpoint refuses -/
  abortFails : List String
  /-- keys whose deletion the endpoint refuses -/
  deleteFails : List String
  /-- the largest page the endpoint serves, whatever the request asks for -/
  pageLimit : Nat
  /-- whether every `ListObjectsV2` request fails -/
  listV2Fails : Bool

/-- The items of a listing strictly after the item a marker names; all of
them without a marker. -/
def afterMarker {α : Type} (name : α → String) : Option String → List α → List α
  | none, xs => xs
  | some _, [] => []
  | some m, x :: xs => if name x = m then xs else afterMarker name (some m) xs

/-- The uploads strictly after the upload a (key, upload id) marker pair
names; all of them when a marker is missing. -/
def uploadsAfter (keyMarker uploadIdMarker : Option String) :
    List MultipartUpload → List MultipartUpload
  | [] => []
  | m :: ms =>
    match keyMarker, uploadIdMarker with
    | some k, some u =>
      if m.Key = k ∧ m.UploadId = u then ms else uploadsAfter keyMarker uploadIdMarker ms
    | _, _ => m :: ms

/-- One page of a stable listing of uploads: at most `size` uploads after the
marker pair, truncated when more remain. -/
def uploadsPage (all : List MultipartUpload) (size : Nat)
    (keyMarker uploadIdMarker : Option String) : ListMultipartUploadsOutput :=
  let rest := uploadsAfter keyMarker uploadIdMarker all
  { Uploads := rest.take size, IsTruncated := decide (size < rest.length) }

/-- An entry of a delimited listing: a key, or a common prefix. -/
inductive Entry where
  | content (key : String)
  | common (pfx : String)
  deriving DecidableEq

/-- The string an entry is ordered and marked by. -/
def Entry.name : Entry → String
  | .content k => k
  | .common p => p

/-- The entry a key contributes to a listing with prefix `pfx` and delimiter
`/`: the key itself, or the common prefix up to the first delimiter after
`pfx`. -/
def entryOf (pfx key : String) : Entry :=
  let rest := key.data.drop pfx.data.length
  if rest.contains '/' then
    .common (String.mk (pfx.data ++ rest.takeWhile (fun ch => ch != '/') ++ ['/']))
  else .content key

/-- Drop an entry that repeats the one before it. -/
def dedupEntries : List Entry → List Entry
  | [] => []
  | [e] => [e]
  | e :: e2 :: es => if e = e2 then dedupEntries (e2 :: es) else e :: dedupEntries (e2 :: es)

/-- The page size a request gets: what it asks for (1000 when it does not
say), capped by the endpoint. -/
def pageSize (limit : Nat) (maxKeys : Option Int) : Nat :=
  min limit ((maxKeys.getD 1000).toNat)

/-- The simulated endpoint on a `Bucket`. -/
def bucketS3 : S3 Bucket where
  ListObjects inp w :=
    let keys := (w.objects.map Prod.fst).filter (fun k => stringsHasPrefix k inp.Prefix)
    let entries := dedupEntries (keys.map (entryOf inp.Prefix))
    let rest := afterMarker Entry.name inp.Marker entries
    let size := pageSize w.pageLimit (some inp.MaxKeys)
    let page := rest.take size
    (.ok { CommonPrefixes := page.filterMap
             (fun e => match e with | .common p => some p | .content _ => none),
           Contents := page.filterMap
             (fun e => match e with | .content k => some ⟨k⟩ | .common _ => none),
           IsTruncated := decide (size < rest.length),
           Prefix := inp.Prefix }, w)
  ListMultipartUploads inp w :=
    let ups := w.uploads.filter (fun m => stringsHasPrefix m.Key inp.Prefix)
    (.ok (uploadsPage ups (pageSize w.pageLimit (some inp.MaxUploads))
      inp.KeyMarker inp.UploadIdMarker), w)
  AbortMultipartUpload inp w :=
    if inp.UploadId ∈ w.abortFails then (.error "AccessDenied", w)
    else
      let left := w.uploads.filter (fun m => !(m.Key == inp.Key && m.UploadId == inp.UploadId))
      (.ok (), { w with uploads := left })
  ListObjectsV2 inp w :=
    if w.listV2Fails then (.error "ServiceUnavailable", w)
    else
      let keys := (w.objects.map Prod.fst).filter (fun k => stringsHasPrefix k inp.Prefix)
      let rest := afterMarker id inp.ContinuationToken keys
      let size := pageSize w.pageLimit inp.MaxKeys
      let page := rest.take size
      (.ok { Contents := page.map Object.mk,
             NextContinuationToken := if size < rest.length then page.getLast? else none,
             IsTruncated := decide (size < rest.length) }, w)
  GetObject inp w :=
    match w.objects.find? (fun kv => kv.1 == inp.Key) with
    | some kv => (.ok kv.2, w)
    | none => (.error "NoSuchKey", w)
  DeleteObject inp w :=
    if inp.Key ∈ w.deleteFails then (.error "AccessDenied", w)
    else
      let left := w.objects.filter (fun kv => !(kv.1 == inp.Key))
      (.ok (), { w with objects := left })

/-- The value of a run of decimal digits, or `none` when a character is not a
digit. -/
def digitsValue : List Char → Option Nat
  | [] => some 0
  | cs => cs.foldl (fun acc ch =>
      match acc with
      | none => none
      | some n => if ch.isDigit then some (10 * n + (ch.toNat - 48)) else none) (some 0)

/-- Days from 1970-01-01 to the given day of the proleptic Gregorian
calendar. -/
def daysFromCivil (y m d : Int) : Int :=
  let y1 := if m ≤ 2 then y - 1 else y
  let era := y1 / 400
  let yoe := y1 - era * 400
  let doy := (153 * (if m > 2 then m - 3 else m + 9) + 2) / 5 + d - 1
  let doe := yoe * 365 + yoe / 4 - yoe / 100 + doy
  era * 146097 + doe - 719468

/-- The number of days of a month. -/
def daysIn (y m : Nat) : Nat :=
  if m = 2 then (if y % 4 = 0 ∧ (y % 100 ≠ 0 ∨ y % 400 = 0) then 29 else 28)
  else if m = 4 ∨ m = 6 ∨ m = 9 ∨ m = 11 then 30 else 31

/-- A `time.Parse` for timestamps written exactly as `YYYY-MM-DDThh:mm:ssZ`;
it is used only with the layout `startedadDateFormat` and serves the concrete
scenarios. -/
def parseStartedAt (layout value : String) : Except Err Int :=
  if layout ≠ startedadDateFormat then .error "layout not supported"
  else
    match value.data with
    | [y1, y2, y3, y4, '-', m1, m2, '-', d1, d2, 'T', h1, h2, ':', n1, n2, ':', s1, s2, 'Z'] =>
      match digitsValue [y1, y2, y3, y4], digitsValue [m1, m2], digitsValue [d1, d2],
        digitsValue [h1, h2], digitsValue [n1, n2], digitsValue [s1, s2] with
      | some y, some m, some d, some h, some n, some s =>
        if 1 ≤ m ∧ m ≤ 12 ∧ 1 ≤ d ∧ d ≤ daysIn y m ∧ h < 24 ∧ n < 60 ∧ s < 60 then
          .ok ((((daysFromCivil y m d * 24 + h) * 60 + n) * 60 + s) * 1000000000)
        else .error "parsing time: out of range"
      | _, _, _, _, _, _ => .error "parsing time: cannot parse"
    | _ => .error "parsing time: cannot parse"

/-- A clock that reads `now` (nanoseconds since 1970-01-01T00:00:00Z)
throughout a scenario, and the timestamp parser. -/
def bucketTime (now : Int) : Time Bucket where
  Now w := (now, w)
  Parse := parseStartedAt

/-- The cleaner on the simulated endpoint, bucket name `registry`. -/
def bucketCleaner (dryRun : Bool) : S3Cleaner Bucket :=
  { s3 := bucketS3, bucket := "registry", dryRun := dryRun }

/-! ## Vocabulary of the statements -/

/-- Whether an interaction changes the bucket: an abort or a deletion. -/
def Event.isMutation : Event → Bool
  | .abortMultipartUpload _ _ => true
  | .deleteObject _ _ => true
  | _ => false

/-- The cleaner with other `AbortMultipartUpload` and `DeleteObject`
operations behind it, everything else unchanged. -/
def S3Cleaner.withMutators {σ : Type} (c : S3Cleaner σ)
    (abort : AbortMultipartUploadInput → σ → Except Err Unit × σ)
    (delete : DeleteObjectInput → σ → Except Err Unit × σ) : S3Cleaner σ :=
  { s3 :=
      { ListObjects := c.s3.ListObjects
        ListMultipartUploads := c.s3.ListMultipartUploads
        AbortMultipartUpload := abort
        ListObjectsV2 := c.s3.ListObjectsV2
        GetObject := c.s3.GetObject
        DeleteObject := delete }
    bucket := c.bucket
    dryRun := c.dryRun }

/-- The successful `DeleteObject` interaction for an object. -/
def deletedEvent {σ : Type} (c : S3Cleaner σ) (o : Object) : Event :=
  Event.deleteObject { Bucket := c.bucket, Key := o.Key } (.ok ())

/-- No interaction of the list changes the bucket. -/
def Quiet (evs : List Event) : Prop := ∀ ev ∈ evs, ev.isMutation = false

/-- The parse error of a marker body that was read but is not a timestamp;
`none` for every other interaction. -/
def unparsedBody {σ : Type} (tm : Time σ) : Event → Option Err
  | .getObject _ (.ok body) =>
    match parseTimeFromStream tm body with
    | .error e => some e
    | .ok _ => none
  | _ => none

/-- No interaction of the list read a marker body that is not a timestamp. -/
def Parsed {σ : Type} (tm : Time σ) (evs : List Event) : Prop :=
  ∀ ev ∈ evs, unparsedBody tm ev = none

/-- The shape of a result with respect to unparsable markers: either none was
read and the call did not panic, or the last interaction read one, none was
read before, and the call panicked with the parse error. -/
def PanicShape {σ α : Type} (tm : Time σ) (r : Result σ α) : Prop :=
  (Parsed tm r.calls ∧ ∀ e, r.out ≠ .panicked e) ∨
    ∃ pre inp body e, r.calls = pre ++ [Event.getObject inp (.ok body)] ∧ Parsed tm pre ∧
      parseTimeFromStream tm body = .error e ∧ r.out = .panicked e

/-- The abort requests among the interactions, in order, each with its
response. -/
def abortsOf (evs : List Event) : List (AbortMultipartUploadInput × Except Err Unit) :=
  evs.filterMap fun ev =>
    match ev with
    | .abortMultipartUpload inp res => some (inp, res)
    | _ => none

/-- The abort request for an upload. -/
def abortRequest {σ : Type} (c : S3Cleaner σ) (m : MultipartUpload) :
    AbortMultipartUploadInput :=
  { Bucket := c.bucket, Key := m.Key, UploadId := m.UploadId }

/-- Whether the age of an upload in whole hours exceeds `cleanupHours` at the
clock reading taken in the environment `w`. -/
def staleAt {σ : Type} (tm : Time σ) (w : σ) (m : MultipartUpload) : Bool :=
  decide (hoursBetween (tm.Now w).1 m.Initiated > cleanupHours)

/-- The number of successful aborts among the interactions. -/
def abortedCount (evs : List Event) : Nat :=
  ((abortsOf evs).filter fun p => p.2.isOk).length

/-- The first request of every `cleanMPUs` call among the interactions (a
listing of uploads without markers) names the prefix the call was made for. -/
def cleanedPrefixes (evs : List Event) : List String :=
  evs.filterMap fun ev =>
    match ev with
    | .listMultipartUploads inp _ =>
      if inp.KeyMarker = none ∧ inp.UploadIdMarker = none then some inp.Prefix else none
    | _ => none

/-! ## Scenarios -/

/-- The time 2024-01-01T00:00:00Z in nanoseconds since 1970-01-01T00:00:00Z. -/
def newYear2024 : Int := 1704067200000000000

/-- A bucket with the given objects and uploads whose endpoint refuses
nothing and serves pages of up to 1000 items. -/
def bucketOf (objects : List (String × Body)) (uploads : List MultipartUpload) : Bucket :=
  { objects := objects, uploads := uploads, abortFails := [], deleteFails := [],
    pageLimit := 1000, listV2Fails := false }

/-- One upload session started at 2024-01-01T00:00:00Z: its marker and three
data objects. -/
def oneSession : Bucket :=
  bucketOf
    [("repo1/_uploads/s1/data1", .ok "a"), ("repo1/_uploads/s1/data2", .ok "b"),
     ("repo1/_uploads/s1/data3", .ok "c"),
     ("repo1/_uploads/s1/startedat", .ok "2024-01-01T00:00:00Z")] []

/-- Two upload sessions of one repository: `s1`, started at
2024-01-01T00:00:00Z, and `s10`, started at 2024-01-02T23:00:00Z. -/
def twoSessions : Bucket :=
  bucketOf
    [("repo1/_uploads/s1/data", .ok "a"),
     ("repo1/_uploads/s1/startedat", .ok "2024-01-01T00:00:00Z"),
     ("repo1/_uploads/s10/data", .ok "b"),
     ("repo1/_uploads/s10/startedat", .ok "2024-01-02T23:00:00Z")] []

/-- The name of the `i`-th repository of `manyRepositories`: `r000`, `r001`, ... -/
def repositoryName (i : Nat) : String :=
  String.mk ['r', Nat.digitChar (i / 100 % 10), Nat.digitChar (i / 10 % 10),
    Nat.digitChar (i % 10)]

/-- A registry with `k` repositories, one object in each and none directly
under the repositories root. -/
def manyRepositories (k : Nat) : Bucket :=
  bucketOf
    ((List.range k).map fun i =>
      (repositoriesRoot ++ repositoryName i ++ "/_layers/link", .ok "sha256")) []

/-- A client that serves a fixed listing of uploads in pages of a fixed size,
resuming after the upload the marker pair names; everything else is the
simulated endpoint. -/
def stableUploadsS3 (all : List MultipartUpload) (size : Nat) : S3 Bucket :=
  { ListObjects := bucketS3.ListObjects
    ListMultipartUploads := fun inp w =>
      (.ok (uploadsPage all size inp.KeyMarker inp.UploadIdMarker), w)
    AbortMultipartUpload := bucketS3.AbortMultipartUpload
    ListObjectsV2 := bucketS3.ListObjectsV2
    GetObject := bucketS3.GetObject
    DeleteObject := bucketS3.DeleteObject }

/-- An in-flight upload of the blob `repo1/blob` initiated at time `t`. -/
def uploadAt (t : Int) : MultipartUpload :=
  { Key := "repo1/blob", UploadId := "upload-1", Initiated := t }

/-- The cleaner, outside dry-run, on a client that serves the fixed listing
`all` in pages of `size` uploads. -/
def stableCleaner (all : List MultipartUpload) (size : Nat) : S3Cleaner Bucket :=
  { s3 := stableUploadsS3 all size, bucket := "registry", dryRun := false }

/-- A registry with one repository that holds an upload session started at
2024-01-01T00:00:00Z and a multipart upload initiated at the same time. -/
def staleRegistry : Bucket :=
  bucketOf
    [("docker/registry/v2/repositories/app/_uploads/s1/data", .ok "a"),
     ("docker/registry/v2/repositories/app/_uploads/s1/startedat",
       .ok "2024-01-01T00:00:00Z")]
    [{ Key := "docker/registry/v2/repositories/app/_uploads/s1/data",
       UploadId := "upload-1", Initiated := newYear2024 }]

/-- A registry whose first upload-session marker does not hold a timestamp;
the session after it started at 2024-01-01T00:00:00Z. -/
def brokenMarkerRegistry : Bucket :=
  bucketOf
    [("docker/registry/v2/repositories/app/_uploads/s0/startedat", .ok "yesterday"),
     ("docker/registry/v2/repositories/app/_uploads/s1/data", .ok "a"),
     ("docker/registry/v2/repositories/app/_uploads/s1/startedat",
       .ok "2024-01-01T00:00:00Z")] []

/-- The keys of the objects in a bucket. -/
def bucketKeys (w : Bucket) : List String := w.objects.map Prod.fst

/-- The simulated endpoint, except that it refuses to read the given keys. -/
def refusingReadS3 (refused : List String) : S3 Bucket :=
  { ListObjects := bucketS3.ListObjects
    ListMultipartUploads := bucketS3.ListMultipartUploads
    AbortMultipartUpload := bucketS3.AbortMultipartUpload
    ListObjectsV2 := bucketS3.ListObjectsV2
    GetObject := fun inp w =>
      if inp.Key ∈ refused then (.error "AccessDenied", w) else bucketS3.GetObject inp w
    DeleteObject := bucketS3.DeleteObject }

/-- Two upload sessions of one repository, `s1-x` and `s1`, both started at
2024-01-01T00:00:00Z. -/
def siblingSessions : Bucket :=
  bucketOf
    [("repo1/_uploads/s1-x/data", .ok "a"),
     ("repo1/_uploads/s1-x/startedat", .ok "2024-01-01T00:00:00Z"),
     ("repo1/_uploads/s1/data", .ok "b"),
     ("repo1/_uploads/s1/startedat", .ok "2024-01-01T00:00:00Z")] []

end S3UploadCleaner

/-! ## Facts about the string helpers -/

namespace S3UploadCleaner
variable {σ : Type}

theorem containsChars_iff (sub s : List Char) : containsChars sub s = true ↔ sub <:+: s := by
  induction s with
  | nil => simp [containsChars]
  | cons c cs ih =>
    simp only [containsChars, Bool.or_eq_true, ih, List.infix_cons_iff,
      List.isPrefixOf_iff_prefix]

theorem isStartedAtKey_iff (key : String) :
    isStartedAtKey key = true ↔
      ("/_uploads/".data <:+: key.data ∧ "/startedat".data <:+ key.data) := by
  simp only [isStartedAtKey, stringsContains, stringsHasSuffix, Bool.and_eq_true,
    containsChars_iff, List.isSuffixOf_iff_suffix]

theorem splitChars_ne_nil (sep : Char) (s : List Char) : splitChars sep s ≠ [] := by
  induction s with
  | nil => simp [splitChars]
  | cons c cs ih =>
    simp only [splitChars]
    split
    · simp
    · split <;> simp

theorem splitChars_cons_sep (sep : Char) (cs : List Char) :
    splitChars sep (sep :: cs) = [] :: splitChars sep cs := by
  simp [splitChars]

theorem splitChars_cons_ne (sep c : Char) (cs p : List Char) (ps : List (List Char))
    (hc : c ≠ sep) (h : splitChars sep cs = p :: ps) :
    splitChars sep (c :: cs) = (c :: p) :: ps := by
  simp [splitChars, hc, h]

theorem splitChars_append_sep (sep : Char) (d l : List Char) :
    splitChars sep (d ++ sep :: l) = splitChars sep d ++ splitChars sep l := by
  induction d with
  | nil => simp [splitChars]
  | cons c cs ih =>
    by_cases hc : c = sep
    · subst hc
      rw [List.cons_append, splitChars_cons_sep, splitChars_cons_sep, ih, List.cons_append]
    · cases h : splitChars sep cs with
      | nil => exact absurd h (splitChars_ne_nil sep cs)
      | cons p ps =>
        rw [h] at ih
        rw [List.cons_append, splitChars_cons_ne sep c _ p (ps ++ splitChars sep l) hc ih,
          splitChars_cons_ne sep c cs p ps hc h, List.cons_append]

theorem splitChars_of_not_mem (sep : Char) (l : List Char) (h : sep ∉ l) :
    splitChars sep l = [l] := by
  induction l with
  | nil => simp [splitChars]
  | cons c cs ih =>
    simp only [List.mem_cons, not_or] at h
    exact splitChars_cons_ne sep c cs cs [] (Ne.symm h.1) (ih h.2)

theorem intercalate_splitChars (sep : Char) (s : List Char) :
    List.intercalate [sep] (splitChars sep s) = s := by
  induction s with
  | nil => simp [splitChars, List.intercalate]
  | cons c cs ih =>
    cases h : splitChars sep cs with
    | nil => exact absurd h (splitChars_ne_nil sep cs)
    | cons p ps =>
      rw [h] at ih
      by_cases hc : c = sep
      · subst hc
        rw [splitChars_cons_sep, h]
        simp only [List.intercalate, List.intersperse, List.flatten_cons, List.nil_append,
          List.singleton_append] at ih ⊢
        rw [ih]
      · rw [splitChars_cons_ne sep c cs p ps hc h]
        cases ps with
        | nil =>
          simp only [List.intercalate, List.intersperse, List.flatten_cons, List.flatten_nil,
            List.append_nil] at ih ⊢
          rw [ih]
        | cons q qs =>
          simp only [List.intercalate, List.intersperse, List.flatten_cons,
            List.cons_append] at ih ⊢
          rw [ih]

/-- The folder name derived from a key is the key without its last segment
and without the slash before it. -/
theorem uploadsFolder_append (d l : List Char) (h : '/' ∉ l) :
    uploadsFolder (String.mk (d ++ '/' :: l)) = String.mk d := by
  have hs : splitChars '/' (d ++ '/' :: l) = splitChars '/' d ++ [l] := by
    rw [splitChars_append_sep, splitChars_of_not_mem _ _ h]
  have hd : ("/" : String).data = ['/'] := rfl
  simp only [uploadsFolder, stringsSplit, stringsJoin, hs, List.map_append, List.map_cons,
    List.map_nil, List.length_append, List.length_map, List.length_singleton,
    Nat.add_sub_cancel, hd]
  rw [List.take_left' (by simp)]
  simp only [List.map_map]
  have : (String.data ∘ String.mk) = id := by funext x; rfl
  rw [this, List.map_id, intercalate_splitChars]

/-! ## Sequencing of the per-object loops -/

@[simp] theorem Result.after_out {α : Type} (pre : List Event) (r : Result σ α) :
    (r.after pre).out = r.out := rfl

@[simp] theorem Result.after_world {α : Type} (pre : List Event) (r : Result σ α) :
    (r.after pre).world = r.world := rfl

@[simp] theorem Result.after_calls {α : Type} (pre : List Event) (r : Result σ α) :
    (r.after pre).calls = pre ++ r.calls := rfl

@[simp] theorem Result.after_nil {α : Type} (r : Result σ α) : r.after [] = r := rfl

@[simp] theorem Result.after_after {α : Type} (p q : List Event) (r : Result σ α) :
    (r.after q).after p = r.after (p ++ q) := by
  simp [Result.after, List.append_assoc]

theorem cleanUploadFoldersPage_cons_skip (tm : Time σ) (c : S3Cleaner σ) (o : Object)
    (rest : List Object) (w : σ) (h : isStartedAtKey o.Key = false) :
    cleanUploadFoldersPage tm c (o :: rest) w = cleanUploadFoldersPage tm c rest w := by
  simp [cleanUploadFoldersPage, h]

/-- Processing `pre ++ post` is processing `pre` and, when that ends normally,
processing `post` from where it ended. -/
theorem cleanUploadFoldersPage_append (tm : Time σ) (c : S3Cleaner σ)
    (pre post : List Object) (w0 w : σ) (evs : List Event)
    (hpre : cleanUploadFoldersPage tm c pre w0 = ⟨.ok (), w, evs⟩) :
    cleanUploadFoldersPage tm c (pre ++ post) w0 =
      (cleanUploadFoldersPage tm c post w).after evs := by
  induction pre generalizing w0 w evs with
  | nil =>
    simp only [cleanUploadFoldersPage, Result.mk.injEq, true_and] at hpre
    obtain ⟨rfl, rfl⟩ := hpre
    simp
  | cons o os ih =>
    by_cases hm : isStartedAtKey o.Key = true
    · simp only [List.cons_append, cleanUploadFoldersPage, hm, if_true, List.append_eq] at hpre ⊢
      cases hr : (hoursSinceUploadStarted tm c o.Key w0).out with
      | error e =>
        simp only [hr] at hpre ⊢
        generalize hq : cleanUploadFoldersPage tm c os
          (hoursSinceUploadStarted tm c o.Key w0).world = q at hpre
        obtain ⟨qo, qw, qc⟩ := q
        simp only [Result.after, Result.mk.injEq] at hpre
        obtain ⟨rfl, rfl, rfl⟩ := hpre
        rw [ih _ _ _ hq]
        simp [Result.after, List.append_assoc]
      | panicked e => simp [hr] at hpre
      | outOfFuel => simp [hr] at hpre
      | ok hs =>
        simp only [hr] at hpre ⊢
        by_cases hgt : hs > cleanupHours
        · simp only [hgt, if_true] at hpre ⊢
          cases hr2 : (removeUploadFolder c o.Key (hoursSinceUploadStarted tm c o.Key w0).world).out with
          | ok u =>
            simp only [hr2] at hpre ⊢
            generalize hq : cleanUploadFoldersPage tm c os
              (removeUploadFolder c o.Key (hoursSinceUploadStarted tm c o.Key w0).world).world = q
              at hpre
            obtain ⟨qo, qw, qc⟩ := q
            simp only [Result.after, Result.mk.injEq] at hpre
            obtain ⟨rfl, rfl, rfl⟩ := hpre
            rw [ih _ _ _ hq]
            simp [Result.after, List.append_assoc]
          | error e => simp [hr2] at hpre
          | panicked e => simp [hr2] at hpre
          | outOfFuel => simp [hr2] at hpre
        · simp only [hgt, if_false] at hpre ⊢
          generalize hq : cleanUploadFoldersPage tm c os
            (hoursSinceUploadStarted tm c o.Key w0).world = q at hpre
          obtain ⟨qo, qw, qc⟩ := q
          simp only [Result.after, Result.mk.injEq] at hpre
          obtain ⟨rfl, rfl, rfl⟩ := hpre
          rw [ih _ _ _ hq]
          simp [Result.after, List.append_assoc]
    · simp only [Bool.not_eq_true] at hm
      rw [List.cons_append, cleanUploadFoldersPage_cons_skip _ _ _ _ _ hm]
      rw [cleanUploadFoldersPage_cons_skip _ _ _ _ _ hm] at hpre
      exact ih _ _ _ hpre

theorem hoursSinceUploadStarted_get_error (tm : Time σ) (c : S3Cleaner σ) (key : String)
    (w w1 : σ) (e : Err) (hget : c.s3.GetObject ⟨c.bucket, key⟩ w = (.error e, w1)) :
    hoursSinceUploadStarted tm c key w =
      ⟨.error e, w1, [Event.getObject ⟨c.bucket, key⟩ (.error e)]⟩ := by
  simp [hoursSinceUploadStarted, hget]

theorem hoursSinceUploadStarted_parse_error (tm : Time σ) (c : S3Cleaner σ) (key : String)
    (w w1 : σ) (body : Body) (e : Err)
    (hget : c.s3.GetObject ⟨c.bucket, key⟩ w = (.ok body, w1))
    (hparse : parseTimeFromStream tm body = .error e) :
    hoursSinceUploadStarted tm c key w =
      ⟨.panicked e, w1, [Event.getObject ⟨c.bucket, key⟩ (.ok body)]⟩ := by
  simp [hoursSinceUploadStarted, hget, hparse]

theorem hoursSinceUploadStarted_calls (tm : Time σ) (c : S3Cleaner σ) (key : String) (w : σ) :
    (hoursSinceUploadStarted tm c key w).calls =
      [Event.getObject { Bucket := c.bucket, Key := key }
        (c.s3.GetObject { Bucket := c.bucket, Key := key } w).1] := by
  cases hg : c.s3.GetObject { Bucket := c.bucket, Key := key } w with
  | mk res w1 =>
    cases res with
    | error e => simp [hoursSinceUploadStarted, hg]
    | ok body =>
      cases hp : parseTimeFromStream tm body with
      | error e => simp [hoursSinceUploadStarted, hg, hp]
      | ok t => simp [hoursSinceUploadStarted, hg, hp]

/-- The interactions of a page that starts with a marker start with the read
of that marker. -/
theorem cleanUploadFoldersPage_cons_marker_calls (tm : Time σ) (c : S3Cleaner σ) (o : Object)
    (rest : List Object) (w : σ) (hm : isStartedAtKey o.Key = true) :
    ∃ tl, (cleanUploadFoldersPage tm c (o :: rest) w).calls =
      (hoursSinceUploadStarted tm c o.Key w).calls ++ tl := by
  rw [cleanUploadFoldersPage]
  simp only [hm, if_true]
  generalize hoursSinceUploadStarted tm c o.Key w = r
  cases hr : r.out with
  | error e => exact ⟨_, rfl⟩
  | panicked e => exact ⟨[], by simp⟩
  | outOfFuel => exact ⟨[], by simp⟩
  | ok hs =>
    simp only
    split
    · generalize removeUploadFolder c o.Key r.world = r2
      cases hr2 : r2.out with
      | ok u => exact ⟨_, by simp [List.append_assoc]; rfl⟩
      | error e => exact ⟨_, by simp; rfl⟩
      | panicked e => exact ⟨_, by simp; rfl⟩
      | outOfFuel => exact ⟨_, by simp; rfl⟩
    · exact ⟨_, rfl⟩

/-! ## Folder derivation and the marker test (C5, C8) -/

/-- C5 (evaluated on the code): for the marker key
`a/b/_uploads/session1/startedat` the folder name that `removeUploadFolder`
derives and sends as the `Prefix` of its listing request is
`a/b/_uploads/session1`; it does not end in a slash, so it is not
`a/b/_uploads/session1/`. -/
theorem removeUploadFolder_prefix_has_no_trailing_slash :
    uploadsFolder "a/b/_uploads/session1/startedat" = "a/b/_uploads/session1" ∧
    uploadsFolder "a/b/_uploads/session1/startedat" ≠ "a/b/_uploads/session1/" ∧
    ∀ (c : S3Cleaner Bucket) (w : Bucket),
      (removeUploadFolder c "a/b/_uploads/session1/startedat" w).calls.head? =
        some (Event.listObjectsV2
          { Bucket := c.bucket, Prefix := "a/b/_uploads/session1", MaxKeys := none,
            ContinuationToken := none }
          (c.s3.ListObjectsV2
            { Bucket := c.bucket, Prefix := "a/b/_uploads/session1", MaxKeys := none,
              ContinuationToken := none } w).1) := by
  have h : uploadsFolder "a/b/_uploads/session1/startedat" = "a/b/_uploads/session1" := by
    decide
  refine ⟨h, by rw [h]; decide, ?_⟩
  intro c w
  cases hl : c.s3.ListObjectsV2
      { Bucket := c.bucket, Prefix := "a/b/_uploads/session1", MaxKeys := none,
        ContinuationToken := none } w with
  | mk res w1 =>
    cases res with
    | error e => simp [removeUploadFolder, h, hl]
    | ok objs => simp [removeUploadFolder, h, hl]

/-- C8 (as stated, refuted): the key `repo/_uploads/s1/restartedat` contains
`_uploads/` and ends with `startedat`, yet `cleanUploadFolders` does not read
it: a page holding only that key causes no request at all. -/
theorem marker_test_is_not_segment_and_suffix :
    ¬ ∀ (key : String) (w : Bucket),
        ((∃ out, Event.getObject { Bucket := "registry", Key := key } out ∈
            (cleanUploadFoldersPage (bucketTime 0) (bucketCleaner false) [⟨key⟩] w).calls) ↔
          (stringsContains key "_uploads/" = true ∧ stringsHasSuffix key "startedat" = true)) := by
  intro h
  have hk := h "repo/_uploads/s1/restartedat"
    { objects := [], uploads := [], abortFails := [], deleteFails := [],
      pageLimit := 1000, listV2Fails := false }
  have hr : stringsContains "repo/_uploads/s1/restartedat" "_uploads/" = true ∧
      stringsHasSuffix "repo/_uploads/s1/restartedat" "startedat" = true := by decide
  obtain ⟨out, hmem⟩ := hk.mpr hr
  have hskip : isStartedAtKey "repo/_uploads/s1/restartedat" = false := by decide
  rw [cleanUploadFoldersPage_cons_skip _ _ _ _ _ hskip] at hmem
  simp [cleanUploadFoldersPage] at hmem

/-- C8 (amended): `cleanUploadFolders` reads a listed key as an upload-session
marker exactly when the key contains `/_uploads/` and ends with `/startedat`,
both with their leading slash.  A page holding only that key issues a
`GetObject` for it exactly in that case; and in a longer page either the key
passes the test and the `GetObject` for it comes first, or it fails the test
and the page is processed as if the key were not there. -/
theorem cleanUploadFolders_marker_test (tm : Time σ) (c : S3Cleaner σ) (o : Object)
    (rest : List Object) (w : σ) :
    ((∃ out, Event.getObject { Bucket := c.bucket, Key := o.Key } out ∈
        (cleanUploadFoldersPage tm c [o] w).calls) ↔
      ("/_uploads/".data <:+: o.Key.data ∧ "/startedat".data <:+ o.Key.data)) ∧
    ((("/_uploads/".data <:+: o.Key.data ∧ "/startedat".data <:+ o.Key.data) ∧
        ∃ evs, (cleanUploadFoldersPage tm c (o :: rest) w).calls =
          Event.getObject { Bucket := c.bucket, Key := o.Key }
            (c.s3.GetObject { Bucket := c.bucket, Key := o.Key } w).1 :: evs) ∨
      (¬ ("/_uploads/".data <:+: o.Key.data ∧ "/startedat".data <:+ o.Key.data) ∧
        cleanUploadFoldersPage tm c (o :: rest) w = cleanUploadFoldersPage tm c rest w)) := by
  rw [← isStartedAtKey_iff]
  have hfirst : ∀ (rest : List Object), isStartedAtKey o.Key = true →
      ∃ evs, (cleanUploadFoldersPage tm c (o :: rest) w).calls =
        Event.getObject { Bucket := c.bucket, Key := o.Key }
          (c.s3.GetObject { Bucket := c.bucket, Key := o.Key } w).1 :: evs := by
    intro rest hm
    obtain ⟨tl, htl⟩ := cleanUploadFoldersPage_cons_marker_calls tm c o rest w hm
    exact ⟨tl, by rw [htl, hoursSinceUploadStarted_calls]; rfl⟩
  by_cases hm : isStartedAtKey o.Key = true
  · refine ⟨⟨fun _ => hm, fun _ => ?_⟩, Or.inl ⟨hm, hfirst rest hm⟩⟩
    obtain ⟨evs, hevs⟩ := hfirst [] hm
    exact ⟨_, by rw [hevs]; exact List.mem_cons_self _ _⟩
  · have hf : isStartedAtKey o.Key = false := by simpa using hm
    refine ⟨⟨fun h => ?_, fun h => absurd h hm⟩,
      Or.inr ⟨hm, cleanUploadFoldersPage_cons_skip _ _ _ _ _ hf⟩⟩
    obtain ⟨out, hmem⟩ := h
    rw [cleanUploadFoldersPage_cons_skip _ _ _ _ _ hf] at hmem
    simp [cleanUploadFoldersPage] at hmem

/-! ## A marker that cannot be read (C10) -/

/-- When the `GetObject` for a marker key fails, the loop over a page issues
nothing else on account of that key and carries on with the rest of the page
from the environment the failed request left; the outcome of the page is the
outcome of the rest of the page.  The marker may stand anywhere in the page:
`pre` are the keys before it, which the loop has passed normally. -/
theorem cleanUploadFoldersPage_get_failure (tm : Time σ) (c : S3Cleaner σ)
    (pre : List Object) (o : Object) (rest : List Object) (w0 w w1 : σ)
    (evs : List Event) (e : Err)
    (hpre : cleanUploadFoldersPage tm c pre w0 = ⟨.ok (), w, evs⟩)
    (hm : isStartedAtKey o.Key = true)
    (hget : c.s3.GetObject { Bucket := c.bucket, Key := o.Key } w = (.error e, w1)) :
    cleanUploadFoldersPage tm c (pre ++ o :: rest) w0 =
        (cleanUploadFoldersPage tm c rest w1).after
          (evs ++ [Event.getObject { Bucket := c.bucket, Key := o.Key } (.error e)]) ∧
      (cleanUploadFoldersPage tm c (pre ++ o :: rest) w0).out =
        (cleanUploadFoldersPage tm c rest w1).out := by
  have h : cleanUploadFoldersPage tm c (pre ++ o :: rest) w0 =
      (cleanUploadFoldersPage tm c rest w1).after
        (evs ++ [Event.getObject { Bucket := c.bucket, Key := o.Key } (.error e)]) := by
    rw [cleanUploadFoldersPage_append tm c pre (o :: rest) w0 w evs hpre]
    rw [cleanUploadFoldersPage]
    simp only [hm, if_true, hoursSinceUploadStarted_get_error tm c o.Key w w1 e hget]
    simp
  exact ⟨h, by rw [h]; rfl⟩

/-! ## Folder removal (C6) -/

/-- Outside dry-run the deletion loop either deletes every object it was
given, or stops at the first refused deletion. -/
theorem removeUploadFolderObjects_cases (c : S3Cleaner σ) (hdry : c.dryRun = false)
    (objs : List Object) (w : σ) :
    ((removeUploadFolderObjects c objs w).out = .ok () ∧
        (removeUploadFolderObjects c objs w).calls = objs.map (deletedEvent c)) ∨
      (∃ pre o post e, objs = pre ++ o :: post ∧
        (removeUploadFolderObjects c objs w).out =
          .error (wrap e ("failed to delete object " ++ o.Key)) ∧
        (removeUploadFolderObjects c objs w).calls =
          pre.map (deletedEvent c) ++
            [Event.deleteObject { Bucket := c.bucket, Key := o.Key } (.error e)]) := by
  induction objs generalizing w with
  | nil => exact Or.inl ⟨rfl, rfl⟩
  | cons o os ih =>
    cases hd : c.s3.DeleteObject { Bucket := c.bucket, Key := o.Key } w with
    | mk res w1 =>
      cases res with
      | error e =>
        refine Or.inr ⟨[], o, os, e, rfl, ?_, ?_⟩ <;>
          simp [removeUploadFolderObjects, hdry, hd]
      | ok u =>
        have hstep : removeUploadFolderObjects c (o :: os) w =
            (removeUploadFolderObjects c os w1).after [deletedEvent c o] := by
          simp [removeUploadFolderObjects, hdry, hd, deletedEvent]
        rcases ih w1 with ⟨ho, hc⟩ | ⟨pre, o2, post, e, hsplit, ho, hc⟩
        · exact Or.inl ⟨by rw [hstep]; exact ho, by rw [hstep]; simp [hc]⟩
        · refine Or.inr ⟨o :: pre, o2, post, e, by simp [hsplit], by rw [hstep]; exact ho, ?_⟩
          rw [hstep]
          simp [hc]

/-- C6 (as stated, refuted): with an endpoint whose listing fails,
`removeUploadFolder` outside dry-run returns an error although no
`DeleteObject` has failed (none was issued), and the objects of the folder
are all still there: the call neither returned without error nor stopped at a
failed deletion. -/
theorem removeUploadFolder_error_without_failed_delete :
    ¬ (((removeUploadFolder (bucketCleaner false) "repo1/_uploads/s1/startedat"
          { objects := [("repo1/_uploads/s1/data", .ok "x"),
              ("repo1/_uploads/s1/startedat", .ok "2024-01-01T00:00:00Z")],
            uploads := [], abortFails := [], deleteFails := [], pageLimit := 1000,
            listV2Fails := true }).out = .ok ()) ∨
        ∃ inp e, Event.deleteObject inp (.error e) ∈
          (removeUploadFolder (bucketCleaner false) "repo1/_uploads/s1/startedat"
            { objects := [("repo1/_uploads/s1/data", .ok "x"),
                ("repo1/_uploads/s1/startedat", .ok "2024-01-01T00:00:00Z")],
              uploads := [], abortFails := [], deleteFails := [], pageLimit := 1000,
              listV2Fails := true }).calls) := by
  have hf : uploadsFolder "repo1/_uploads/s1/startedat" = "repo1/_uploads/s1" := by decide
  simp [removeUploadFolder, hf, bucketCleaner, bucketS3]

/-- The interactions of `removeUploadFolder` outside dry-run: the listing
request, then, when it succeeded, one `DeleteObject` for each listed object in
order up to and including the first that fails. -/
theorem removeUploadFolder_trace (c : S3Cleaner σ) (key : String) (w : σ)
    (hdry : c.dryRun = false) :
    (∃ e,
        (c.s3.ListObjectsV2 ⟨c.bucket, uploadsFolder key, none, none⟩ w).1 = .error e ∧
        (removeUploadFolder c key w).out =
          .error (wrap e ("failed to list objects for prefix " ++ uploadsFolder key)) ∧
        (removeUploadFolder c key w).calls =
          [Event.listObjectsV2 ⟨c.bucket, uploadsFolder key, none, none⟩ (.error e)]) ∨
      (∃ objs,
        (c.s3.ListObjectsV2 ⟨c.bucket, uploadsFolder key, none, none⟩ w).1 = .ok objs ∧
        (((removeUploadFolder c key w).out = .ok () ∧
            (removeUploadFolder c key w).calls =
              Event.listObjectsV2 ⟨c.bucket, uploadsFolder key, none, none⟩ (.ok objs) ::
                objs.Contents.map (deletedEvent c)) ∨
          (∃ pre o post e, objs.Contents = pre ++ o :: post ∧
            (removeUploadFolder c key w).out =
              .error (wrap e ("failed to delete object " ++ o.Key)) ∧
            (removeUploadFolder c key w).calls =
              Event.listObjectsV2 ⟨c.bucket, uploadsFolder key, none, none⟩ (.ok objs) ::
                (pre.map (deletedEvent c) ++
                  [Event.deleteObject { Bucket := c.bucket, Key := o.Key } (.error e)])))) := by
  cases hl : c.s3.ListObjectsV2 ⟨c.bucket, uploadsFolder key, none, none⟩ w with
  | mk res w1 =>
    cases res with
    | error e =>
      exact Or.inl ⟨e, rfl, by simp [removeUploadFolder, hl], by simp [removeUploadFolder, hl]⟩
    | ok objs =>
      have hstep : removeUploadFolder c key w =
          (removeUploadFolderObjects c objs.Contents w1).after
            [Event.listObjectsV2 ⟨c.bucket, uploadsFolder key, none, none⟩ (.ok objs)] := by
        simp [removeUploadFolder, hl]
      refine Or.inr ⟨objs, rfl, ?_⟩
      rcases removeUploadFolderObjects_cases c hdry objs.Contents w1 with
        ⟨ho, hc⟩ | ⟨pre, o, post, e, hsplit, ho, hc⟩
      · exact Or.inl ⟨by rw [hstep]; exact ho, by rw [hstep]; simp [hc]⟩
      · exact Or.inr ⟨pre, o, post, e, hsplit, by rw [hstep]; exact ho,
          by rw [hstep]; simp [hc]⟩

/-! ## Multipart uploads: unfolding the loops -/

theorem cleanMPUsPage_cons (tm : Time σ) (c : S3Cleaner σ) (multi : MultipartUpload)
    (rest : List MultipartUpload) (n : Nat) (w : σ) :
    cleanMPUsPage tm c (multi :: rest) n w =
      if hoursBetween (tm.Now w).1 multi.Initiated > cleanupHours then
        if !c.dryRun then
          match (c.s3.AbortMultipartUpload ⟨c.bucket, multi.Key, multi.UploadId⟩ (tm.Now w).2).1 with
          | .error e =>
            ((cleanMPUsPage tm c rest n
                (c.s3.AbortMultipartUpload ⟨c.bucket, multi.Key, multi.UploadId⟩ (tm.Now w).2).2).1,
              (cleanMPUsPage tm c rest n
                (c.s3.AbortMultipartUpload ⟨c.bucket, multi.Key, multi.UploadId⟩ (tm.Now w).2).2).2.1,
              Event.abortMultipartUpload ⟨c.bucket, multi.Key, multi.UploadId⟩ (.error e) ::
                (cleanMPUsPage tm c rest n
                  (c.s3.AbortMultipartUpload ⟨c.bucket, multi.Key, multi.UploadId⟩
                    (tm.Now w).2).2).2.2)
          | .ok u =>
            ((cleanMPUsPage tm c rest (n + 1)
                (c.s3.AbortMultipartUpload ⟨c.bucket, multi.Key, multi.UploadId⟩ (tm.Now w).2).2).1,
              (cleanMPUsPage tm c rest (n + 1)
                (c.s3.AbortMultipartUpload ⟨c.bucket, multi.Key, multi.UploadId⟩ (tm.Now w).2).2).2.1,
              Event.abortMultipartUpload ⟨c.bucket, multi.Key, multi.UploadId⟩ (.ok u) ::
                (cleanMPUsPage tm c rest (n + 1)
                  (c.s3.AbortMultipartUpload ⟨c.bucket, multi.Key, multi.UploadId⟩
                    (tm.Now w).2).2).2.2)
        else cleanMPUsPage tm c rest n (tm.Now w).2
      else cleanMPUsPage tm c rest n (tm.Now w).2 := by
  rw [cleanMPUsPage]

theorem cleanMPUsLoop_succ (tm : Time σ) (c : S3Cleaner σ) (pfx : String) (fuel n : Nat)
    (km um : Option String) (w : σ) :
    cleanMPUsLoop tm c pfx (fuel + 1) n km um w =
      match (c.s3.ListMultipartUploads ⟨c.bucket, pfx, 1000, km, um⟩ w).1 with
      | .error e =>
        ⟨.error (wrap e "failed to list multipart uploads"),
          (c.s3.ListMultipartUploads ⟨c.bucket, pfx, 1000, km, um⟩ w).2,
          [Event.listMultipartUploads ⟨c.bucket, pfx, 1000, km, um⟩ (.error e)]⟩
      | .ok resp =>
        if resp.IsTruncated && decide (resp.Uploads.length > 0) then
          match resp.Uploads.getLast? with
          | some l =>
            (cleanMPUsLoop tm c pfx fuel
              (cleanMPUsPage tm c resp.Uploads n
                (c.s3.ListMultipartUploads ⟨c.bucket, pfx, 1000, km, um⟩ w).2).1
              (some l.Key) (some l.UploadId)
              (cleanMPUsPage tm c resp.Uploads n
                (c.s3.ListMultipartUploads ⟨c.bucket, pfx, 1000, km, um⟩ w).2).2.1).after
              (Event.listMultipartUploads ⟨c.bucket, pfx, 1000, km, um⟩ (.ok resp) ::
                (cleanMPUsPage tm c resp.Uploads n
                  (c.s3.ListMultipartUploads ⟨c.bucket, pfx, 1000, km, um⟩ w).2).2.2)
          | none =>
            ⟨.ok (cleanMPUsPage tm c resp.Uploads n
                (c.s3.ListMultipartUploads ⟨c.bucket, pfx, 1000, km, um⟩ w).2).1,
              (cleanMPUsPage tm c resp.Uploads n
                (c.s3.ListMultipartUploads ⟨c.bucket, pfx, 1000, km, um⟩ w).2).2.1,
              Event.listMultipartUploads ⟨c.bucket, pfx, 1000, km, um⟩ (.ok resp) ::
                (cleanMPUsPage tm c resp.Uploads n
                  (c.s3.ListMultipartUploads ⟨c.bucket, pfx, 1000, km, um⟩ w).2).2.2⟩
        else
          ⟨.ok (cleanMPUsPage tm c resp.Uploads n
              (c.s3.ListMultipartUploads ⟨c.bucket, pfx, 1000, km, um⟩ w).2).1,
            (cleanMPUsPage tm c resp.Uploads n
              (c.s3.ListMultipartUploads ⟨c.bucket, pfx, 1000, km, um⟩ w).2).2.1,
            Event.listMultipartUploads ⟨c.bucket, pfx, 1000, km, um⟩ (.ok resp) ::
              (cleanMPUsPage tm c resp.Uploads n
                (c.s3.ListMultipartUploads ⟨c.bucket, pfx, 1000, km, um⟩ w).2).2.2⟩ := by
  rw [cleanMPUsLoop]

/-! ## No abort at or below the threshold (C1) -/

/-- Every abort a page issues is for an upload of the page whose age, at some
clock reading, exceeded `cleanupHours`; and a page issues nothing but aborts. -/
theorem cleanMPUsPage_calls (tm : Time σ) (c : S3Cleaner σ) (ups : List MultipartUpload)
    (n : Nat) (w : σ) (ev : Event) (hev : ev ∈ (cleanMPUsPage tm c ups n w).2.2) :
    c.dryRun = false ∧
      ∃ m ∈ ups, ∃ res w1, ev = Event.abortMultipartUpload ⟨c.bucket, m.Key, m.UploadId⟩ res ∧
        hoursBetween (tm.Now w1).1 m.Initiated > cleanupHours := by
  induction ups generalizing n w with
  | nil => simp [cleanMPUsPage] at hev
  | cons m rest ih =>
    have lift : ∀ n1 w1, ev ∈ (cleanMPUsPage tm c rest n1 w1).2.2 →
        c.dryRun = false ∧
          ∃ m1 ∈ m :: rest, ∃ res w2,
            ev = Event.abortMultipartUpload ⟨c.bucket, m1.Key, m1.UploadId⟩ res ∧
            hoursBetween (tm.Now w2).1 m1.Initiated > cleanupHours := by
      intro n1 w1 h
      obtain ⟨hd, m1, hm1, res, w2, h1, h2⟩ := ih n1 w1 h
      exact ⟨hd, m1, List.mem_cons_of_mem _ hm1, res, w2, h1, h2⟩
    rw [cleanMPUsPage_cons] at hev
    by_cases hgt : hoursBetween (tm.Now w).1 m.Initiated > cleanupHours
    · simp only [hgt, if_true] at hev
      by_cases hdry : c.dryRun = true
      · simp only [hdry, Bool.not_true, Bool.false_eq_true, if_false] at hev
        exact lift _ _ hev
      · have hdry : c.dryRun = false := by simpa using hdry
        simp only [hdry, Bool.not_false, if_true] at hev
        cases hab : (c.s3.AbortMultipartUpload ⟨c.bucket, m.Key, m.UploadId⟩ (tm.Now w).2).1 with
        | error e =>
          simp only [hab, List.mem_cons] at hev
          rcases hev with h | h
          · exact ⟨hdry, m, List.mem_cons_self _ _, _, w, h, hgt⟩
          · exact lift _ _ h
        | ok u =>
          simp only [hab, List.mem_cons] at hev
          rcases hev with h | h
          · exact ⟨hdry, m, List.mem_cons_self _ _, _, w, h, hgt⟩
          · exact lift _ _ h
    · simp only [hgt, if_false] at hev
      exact lift _ _ hev

/-- Every abort `cleanMPUs` issues is for an upload of a page it was served
whose age, at some clock reading, exceeded `cleanupHours`. -/
theorem cleanMPUsLoop_abort (tm : Time σ) (c : S3Cleaner σ) (pfx : String) (fuel n : Nat)
    (km um : Option String) (w : σ) (inp : AbortMultipartUploadInput) (res : Except Err Unit)
    (hev : Event.abortMultipartUpload inp res ∈ (cleanMPUsLoop tm c pfx fuel n km um w).calls) :
    c.dryRun = false ∧
      ∃ linp resp, Event.listMultipartUploads linp (.ok resp) ∈
          (cleanMPUsLoop tm c pfx fuel n km um w).calls ∧
        ∃ m ∈ resp.Uploads, ∃ w1, inp = ⟨c.bucket, m.Key, m.UploadId⟩ ∧
          hoursBetween (tm.Now w1).1 m.Initiated > cleanupHours := by
  induction fuel generalizing n km um w with
  | zero => simp [cleanMPUsLoop] at hev
  | succ fuel ih =>
    rw [cleanMPUsLoop_succ] at hev ⊢
    cases hl : (c.s3.ListMultipartUploads ⟨c.bucket, pfx, 1000, km, um⟩ w).1 with
    | error e => simp [hl] at hev
    | ok resp =>
      simp only [hl] at hev ⊢
      have here : ∀ evs : List Event,
          Event.abortMultipartUpload inp res ∈
            (cleanMPUsPage tm c resp.Uploads n
              (c.s3.ListMultipartUploads ⟨c.bucket, pfx, 1000, km, um⟩ w).2).2.2 →
          c.dryRun = false ∧
            ∃ linp resp1, Event.listMultipartUploads linp (.ok resp1) ∈
                Event.listMultipartUploads ⟨c.bucket, pfx, 1000, km, um⟩ (.ok resp) :: evs ∧
              ∃ m ∈ resp1.Uploads, ∃ w1, inp = ⟨c.bucket, m.Key, m.UploadId⟩ ∧
                hoursBetween (tm.Now w1).1 m.Initiated > cleanupHours := by
        intro evs h
        obtain ⟨hd, m, hm, res1, w1, h1, h2⟩ := cleanMPUsPage_calls tm c _ _ _ _ h
        simp only [Event.abortMultipartUpload.injEq] at h1
        exact ⟨hd, _, resp, List.mem_cons_self _ _, m, hm, w1, h1.1, h2⟩
      by_cases hcond : (resp.IsTruncated && decide (resp.Uploads.length > 0)) = true
      · cases hlast : resp.Uploads.getLast? with
        | some l =>
          simp only [hcond, if_true, hlast, Result.after_calls, List.cons_append] at hev ⊢
          rcases List.mem_cons.1 hev with h | h
          · cases h
          · rcases List.mem_append.1 h with h | h
            · obtain ⟨hd, linp, resp1, hmem, rest⟩ := here [] h
              simp only [List.mem_cons, List.not_mem_nil, or_false] at hmem
              exact ⟨hd, linp, resp1, List.mem_cons.2 (Or.inl hmem), rest⟩
            · obtain ⟨hd, linp, resp1, hmem, rest⟩ := ih _ _ _ _ h
              exact ⟨hd, linp, resp1,
                List.mem_cons_of_mem _ (List.mem_append.2 (Or.inr hmem)), rest⟩
        | none =>
          simp only [hcond, if_true, hlast] at hev ⊢
          rcases List.mem_cons.1 hev with h | h
          · cases h
          · obtain ⟨hd, linp, resp1, hmem, rest⟩ := here [] h
            simp only [List.mem_cons, List.not_mem_nil, or_false] at hmem
            exact ⟨hd, linp, resp1, List.mem_cons.2 (Or.inl hmem), rest⟩
      · rw [if_neg hcond] at hev ⊢
        rcases List.mem_cons.1 hev with h | h
        · cases h
        · obtain ⟨hd, linp, resp1, hmem, rest⟩ := here [] h
          simp only [List.mem_cons, List.not_mem_nil, or_false] at hmem
          exact ⟨hd, linp, resp1, List.mem_cons.2 (Or.inl hmem), rest⟩

/-- C1: `cleanMPUs` issues no `AbortMultipartUpload` for an upload whose age in
whole hours is at most `cleanupHours` (12), in dry-run and outside it: if
every listed upload with the given key and upload id has, at every reading of
the clock, an age of at most `cleanupHours`, then no abort for that key and
upload id is among the requests of the run.  The comparison is strict, so an
age of exactly 12 hours is covered. -/
theorem cleanMPUs_no_abort_at_most_cleanupHours (tm : Time σ) (c : S3Cleaner σ)
    (pfx : String) (fuel : Nat) (w : σ) (key uploadId : String)
    (hage : ∀ linp resp, Event.listMultipartUploads linp (.ok resp) ∈
        (cleanMPUs tm c pfx fuel w).calls →
      ∀ m ∈ resp.Uploads, m.Key = key → m.UploadId = uploadId →
        ∀ w1, hoursBetween (tm.Now w1).1 m.Initiated ≤ cleanupHours) :
    ∀ bucket res, Event.abortMultipartUpload ⟨bucket, key, uploadId⟩ res ∉
      (cleanMPUs tm c pfx fuel w).calls := by
  intro bucket res hmem
  obtain ⟨_, linp, resp, hl, m, hm, w1, hinp, hgt⟩ :=
    cleanMPUsLoop_abort tm c pfx fuel 0 none none w _ _ hmem
  simp only [AbortMultipartUploadInput.mk.injEq] at hinp
  have := hage linp resp hl m hm hinp.2.1.symm hinp.2.2.symm w1
  omega

/-! ## Dry run (C3) -/

@[simp] theorem quiet_nil : Quiet [] := by simp [Quiet]

@[simp] theorem quiet_cons (ev : Event) (evs : List Event) :
    Quiet (ev :: evs) ↔ ev.isMutation = false ∧ Quiet evs := by
  simp [Quiet]

@[simp] theorem quiet_append (xs ys : List Event) :
    Quiet (xs ++ ys) ↔ Quiet xs ∧ Quiet ys := by
  simp only [Quiet, List.mem_append]
  constructor
  · intro h
    exact ⟨fun ev he => h ev (Or.inl he), fun ev he => h ev (Or.inr he)⟩
  · rintro ⟨h1, h2⟩ ev (he | he)
    · exact h1 ev he
    · exact h2 ev he

theorem cleanMPUsPage_dryRun (tm : Time σ) (c : S3Cleaner σ) (hdry : c.dryRun = true)
    (ups : List MultipartUpload) (n : Nat) (w : σ) :
    (cleanMPUsPage tm c ups n w).1 = n ∧ (cleanMPUsPage tm c ups n w).2.2 = [] := by
  induction ups generalizing w with
  | nil => simp [cleanMPUsPage]
  | cons m rest ih =>
    rw [cleanMPUsPage_cons]
    simp only [hdry, Bool.not_true, Bool.false_eq_true, if_false, ite_self]
    exact ih _

theorem cleanMPUsPage_withMutators (tm : Time σ) (c : S3Cleaner σ) (hdry : c.dryRun = true)
    (abort : AbortMultipartUploadInput → σ → Except Err Unit × σ)
    (delete : DeleteObjectInput → σ → Except Err Unit × σ)
    (ups : List MultipartUpload) (n : Nat) (w : σ) :
    cleanMPUsPage tm (c.withMutators abort delete) ups n w = cleanMPUsPage tm c ups n w := by
  have hdry2 : (c.withMutators abort delete).dryRun = true := hdry
  induction ups generalizing w with
  | nil => simp [cleanMPUsPage]
  | cons m rest ih =>
    rw [cleanMPUsPage_cons, cleanMPUsPage_cons]
    simp only [hdry, hdry2, Bool.not_true, Bool.false_eq_true, if_false, ite_self]
    exact ih _

theorem cleanMPUsLoop_dryRun (tm : Time σ) (c : S3Cleaner σ) (hdry : c.dryRun = true)
    (pfx : String) (fuel n : Nat) (km um : Option String) (w : σ) :
    Quiet (cleanMPUsLoop tm c pfx fuel n km um w).calls ∧
      (∀ k, (cleanMPUsLoop tm c pfx fuel n km um w).out = .ok k → k = n) ∧
      (∀ e, (cleanMPUsLoop tm c pfx fuel n km um w).out ≠ .panicked e) := by
  induction fuel generalizing n km um w with
  | zero => simp [cleanMPUsLoop]
  | succ fuel ih =>
    rw [cleanMPUsLoop_succ]
    cases hl : (c.s3.ListMultipartUploads ⟨c.bucket, pfx, 1000, km, um⟩ w).1 with
    | error e => simp [Event.isMutation]
    | ok resp =>
      obtain ⟨h1, h2⟩ := cleanMPUsPage_dryRun tm c hdry resp.Uploads n
        (c.s3.ListMultipartUploads ⟨c.bucket, pfx, 1000, km, um⟩ w).2
      simp only [h1, h2]
      by_cases hcond : (resp.IsTruncated && decide (resp.Uploads.length > 0)) = true
      · cases hlast : resp.Uploads.getLast? with
        | some l =>
          simp only [hcond, if_true, Result.after_calls, Result.after_out, quiet_append,
            quiet_cons, quiet_nil, Event.isMutation, and_true, true_and]
          exact ih _ _ _ _
        | none => simp [hcond, Event.isMutation]
      · simp [hcond, Event.isMutation]

theorem cleanMPUsLoop_withMutators (tm : Time σ) (c : S3Cleaner σ) (hdry : c.dryRun = true)
    (abort : AbortMultipartUploadInput → σ → Except Err Unit × σ)
    (delete : DeleteObjectInput → σ → Except Err Unit × σ)
    (pfx : String) (fuel n : Nat) (km um : Option String) (w : σ) :
    cleanMPUsLoop tm (c.withMutators abort delete) pfx fuel n km um w =
      cleanMPUsLoop tm c pfx fuel n km um w := by
  induction fuel generalizing n km um w with
  | zero => simp [cleanMPUsLoop]
  | succ fuel ih =>
    rw [cleanMPUsLoop_succ, cleanMPUsLoop_succ]
    simp only [cleanMPUsPage_withMutators tm c hdry, ih]
    rfl

theorem removeUploadFolderObjects_dryRun (c : S3Cleaner σ) (hdry : c.dryRun = true)
    (objs : List Object) (w : σ) :
    removeUploadFolderObjects c objs w = ⟨.ok (), w, []⟩ := by
  induction objs with
  | nil => rfl
  | cons o os ih => simp [removeUploadFolderObjects, hdry, ih]

theorem removeUploadFolder_dryRun (c : S3Cleaner σ) (hdry : c.dryRun = true)
    (key : String) (w : σ) :
    Quiet (removeUploadFolder c key w).calls ∧
      (∀ e, (removeUploadFolder c key w).out ≠ .panicked e) := by
  cases hl : c.s3.ListObjectsV2 ⟨c.bucket, uploadsFolder key, none, none⟩ w with
  | mk res w1 =>
    cases res with
    | error e => simp [removeUploadFolder, hl, Event.isMutation]
    | ok objs =>
      simp [removeUploadFolder, hl, removeUploadFolderObjects_dryRun c hdry, Event.isMutation]

theorem removeUploadFolder_withMutators (c : S3Cleaner σ) (hdry : c.dryRun = true)
    (abort : AbortMultipartUploadInput → σ → Except Err Unit × σ)
    (delete : DeleteObjectInput → σ → Except Err Unit × σ) (key : String) (w : σ) :
    removeUploadFolder (c.withMutators abort delete) key w = removeUploadFolder c key w := by
  have hdry2 : (c.withMutators abort delete).dryRun = true := hdry
  cases hl : c.s3.ListObjectsV2 ⟨c.bucket, uploadsFolder key, none, none⟩ w with
  | mk res w1 =>
    have hl2 : (c.withMutators abort delete).s3.ListObjectsV2
        ⟨(c.withMutators abort delete).bucket, uploadsFolder key, none, none⟩ w = (res, w1) := hl
    cases res with
    | error e => simp [removeUploadFolder, hl, hl2]; rfl
    | ok objs =>
      simp [removeUploadFolder, hl, hl2, removeUploadFolderObjects_dryRun c hdry,
        removeUploadFolderObjects_dryRun _ hdry2]
      rfl

theorem hoursSinceUploadStarted_withMutators (tm : Time σ) (c : S3Cleaner σ)
    (abort : AbortMultipartUploadInput → σ → Except Err Unit × σ)
    (delete : DeleteObjectInput → σ → Except Err Unit × σ) (key : String) (w : σ) :
    hoursSinceUploadStarted tm (c.withMutators abort delete) key w =
      hoursSinceUploadStarted tm c key w := rfl

theorem hoursSinceUploadStarted_quiet (tm : Time σ) (c : S3Cleaner σ) (key : String) (w : σ) :
    Quiet (hoursSinceUploadStarted tm c key w).calls := by
  rw [hoursSinceUploadStarted_calls]
  simp [Event.isMutation]

theorem cleanUploadFoldersPage_dryRun (tm : Time σ) (c : S3Cleaner σ) (hdry : c.dryRun = true)
    (objs : List Object) (w : σ) :
    Quiet (cleanUploadFoldersPage tm c objs w).calls := by
  induction objs generalizing w with
  | nil => simp [cleanUploadFoldersPage]
  | cons o os ih =>
    by_cases hm : isStartedAtKey o.Key = true
    · rw [cleanUploadFoldersPage]
      simp only [hm, if_true]
      have hq := hoursSinceUploadStarted_quiet tm c o.Key w
      generalize hoursSinceUploadStarted tm c o.Key w = r at hq
      cases hr : r.out with
      | error e => simp [hq, ih]
      | panicked e => simpa using hq
      | outOfFuel => simpa using hq
      | ok hs =>
        simp only
        split
        · have hq2 := (removeUploadFolder_dryRun c hdry o.Key r.world).1
          generalize removeUploadFolder c o.Key r.world = r2 at hq2
          cases hr2 : r2.out with
          | ok u => simp [hq, hq2, ih]
          | error e => simp [hq, hq2]
          | panicked e => simp [hq, hq2]
          | outOfFuel => simp [hq, hq2]
        · simp [hq, ih]
    · have hf : isStartedAtKey o.Key = false := by simpa using hm
      rw [cleanUploadFoldersPage_cons_skip _ _ _ _ _ hf]
      exact ih w

theorem cleanUploadFoldersPage_withMutators (tm : Time σ) (c : S3Cleaner σ)
    (hdry : c.dryRun = true)
    (abort : AbortMultipartUploadInput → σ → Except Err Unit × σ)
    (delete : DeleteObjectInput → σ → Except Err Unit × σ) (objs : List Object) (w : σ) :
    cleanUploadFoldersPage tm (c.withMutators abort delete) objs w =
      cleanUploadFoldersPage tm c objs w := by
  induction objs generalizing w with
  | nil => rfl
  | cons o os ih =>
    rw [cleanUploadFoldersPage, cleanUploadFoldersPage]
    simp only [hoursSinceUploadStarted_withMutators, removeUploadFolder_withMutators c hdry, ih]

theorem cleanUploadFoldersLoop_succ (tm : Time σ) (c : S3Cleaner σ) (pfx : String) (fuel : Nat)
    (tok : Option String) (w : σ) :
    cleanUploadFoldersLoop tm c pfx (fuel + 1) tok w =
      match (c.s3.ListObjectsV2 ⟨c.bucket, pfx, some 100, tok⟩ w).1 with
      | .error e =>
        ⟨.error (wrap e ("failed to list objects for prefix " ++ pfx)),
          (c.s3.ListObjectsV2 ⟨c.bucket, pfx, some 100, tok⟩ w).2,
          [Event.listObjectsV2 ⟨c.bucket, pfx, some 100, tok⟩ (.error e)]⟩
      | .ok objs =>
        match (cleanUploadFoldersPage tm c objs.Contents
            (c.s3.ListObjectsV2 ⟨c.bucket, pfx, some 100, tok⟩ w).2).out with
        | .ok _ =>
          if objs.IsTruncated then
            (cleanUploadFoldersLoop tm c pfx fuel objs.NextContinuationToken
              (cleanUploadFoldersPage tm c objs.Contents
                (c.s3.ListObjectsV2 ⟨c.bucket, pfx, some 100, tok⟩ w).2).world).after
              (Event.listObjectsV2 ⟨c.bucket, pfx, some 100, tok⟩ (.ok objs) ::
                (cleanUploadFoldersPage tm c objs.Contents
                  (c.s3.ListObjectsV2 ⟨c.bucket, pfx, some 100, tok⟩ w).2).calls)
          else
            ⟨.ok (), (cleanUploadFoldersPage tm c objs.Contents
                (c.s3.ListObjectsV2 ⟨c.bucket, pfx, some 100, tok⟩ w).2).world,
              Event.listObjectsV2 ⟨c.bucket, pfx, some 100, tok⟩ (.ok objs) ::
                (cleanUploadFoldersPage tm c objs.Contents
                  (c.s3.ListObjectsV2 ⟨c.bucket, pfx, some 100, tok⟩ w).2).calls⟩
        | .error e =>
          ⟨.error e, (cleanUploadFoldersPage tm c objs.Contents
              (c.s3.ListObjectsV2 ⟨c.bucket, pfx, some 100, tok⟩ w).2).world,
            Event.listObjectsV2 ⟨c.bucket, pfx, some 100, tok⟩ (.ok objs) ::
              (cleanUploadFoldersPage tm c objs.Contents
                (c.s3.ListObjectsV2 ⟨c.bucket, pfx, some 100, tok⟩ w).2).calls⟩
        | .panicked e =>
          ⟨.panicked e, (cleanUploadFoldersPage tm c objs.Contents
              (c.s3.ListObjectsV2 ⟨c.bucket, pfx, some 100, tok⟩ w).2).world,
            Event.listObjectsV2 ⟨c.bucket, pfx, some 100, tok⟩ (.ok objs) ::
              (cleanUploadFoldersPage tm c objs.Contents
                (c.s3.ListObjectsV2 ⟨c.bucket, pfx, some 100, tok⟩ w).2).calls⟩
        | .outOfFuel =>
          ⟨.outOfFuel, (cleanUploadFoldersPage tm c objs.Contents
              (c.s3.ListObjectsV2 ⟨c.bucket, pfx, some 100, tok⟩ w).2).world,
            Event.listObjectsV2 ⟨c.bucket, pfx, some 100, tok⟩ (.ok objs) ::
              (cleanUploadFoldersPage tm c objs.Contents
                (c.s3.ListObjectsV2 ⟨c.bucket, pfx, some 100, tok⟩ w).2).calls⟩ := by
  rw [cleanUploadFoldersLoop]

theorem cleanUploadFoldersLoop_dryRun (tm : Time σ) (c : S3Cleaner σ) (hdry : c.dryRun = true)
    (pfx : String) (fuel : Nat) (tok : Option String) (w : σ) :
    Quiet (cleanUploadFoldersLoop tm c pfx fuel tok w).calls := by
  induction fuel generalizing tok w with
  | zero => simp [cleanUploadFoldersLoop]
  | succ fuel ih =>
    rw [cleanUploadFoldersLoop_succ]
    cases hl : (c.s3.ListObjectsV2 ⟨c.bucket, pfx, some 100, tok⟩ w).1 with
    | error e => simp [Event.isMutation]
    | ok objs =>
      simp only
      have hq := cleanUploadFoldersPage_dryRun tm c hdry objs.Contents
        (c.s3.ListObjectsV2 ⟨c.bucket, pfx, some 100, tok⟩ w).2
      generalize cleanUploadFoldersPage tm c objs.Contents
        (c.s3.ListObjectsV2 ⟨c.bucket, pfx, some 100, tok⟩ w).2 = r at hq
      cases hr : r.out with
      | ok u =>
        simp only
        split
        · simp [hq, ih, Event.isMutation]
        · simp [hq, Event.isMutation]
      | error e => simp [hq, Event.isMutation]
      | panicked e => simp [hq, Event.isMutation]
      | outOfFuel => simp [hq, Event.isMutation]

theorem cleanUploadFoldersLoop_withMutators (tm : Time σ) (c : S3Cleaner σ)
    (hdry : c.dryRun = true)
    (abort : AbortMultipartUploadInput → σ → Except Err Unit × σ)
    (delete : DeleteObjectInput → σ → Except Err Unit × σ)
    (pfx : String) (fuel : Nat) (tok : Option String) (w : σ) :
    cleanUploadFoldersLoop tm (c.withMutators abort delete) pfx fuel tok w =
      cleanUploadFoldersLoop tm c pfx fuel tok w := by
  induction fuel generalizing tok w with
  | zero => rfl
  | succ fuel ih =>
    rw [cleanUploadFoldersLoop_succ, cleanUploadFoldersLoop_succ]
    simp only [cleanUploadFoldersPage_withMutators tm c hdry, ih]
    rfl

theorem cleanCommonPrefixes_dryRun (tm : Time σ) (c : S3Cleaner σ) (hdry : c.dryRun = true)
    (fuel : Nat) (cps : List String) (n : Nat) (w : σ) :
    Quiet (cleanCommonPrefixes tm c fuel cps n w).calls := by
  induction cps generalizing n w with
  | nil => simp [cleanCommonPrefixes]
  | cons cp rest ih =>
    rw [cleanCommonPrefixes]
    have hq := (cleanMPUsLoop_dryRun tm c hdry cp fuel 0 none none w).1
    simp only [cleanMPUs]
    generalize cleanMPUsLoop tm c cp fuel 0 none none w = r at hq
    cases hr : r.out with
    | ok k => simp [hq, ih]
    | error e => simpa using hq
    | panicked e => simpa using hq
    | outOfFuel => simpa using hq

theorem cleanCommonPrefixes_withMutators (tm : Time σ) (c : S3Cleaner σ)
    (hdry : c.dryRun = true)
    (abort : AbortMultipartUploadInput → σ → Except Err Unit × σ)
    (delete : DeleteObjectInput → σ → Except Err Unit × σ)
    (fuel : Nat) (cps : List String) (n : Nat) (w : σ) :
    cleanCommonPrefixes tm (c.withMutators abort delete) fuel cps n w =
      cleanCommonPrefixes tm c fuel cps n w := by
  induction cps generalizing n w with
  | nil => rfl
  | cons cp rest ih =>
    rw [cleanCommonPrefixes, cleanCommonPrefixes]
    simp only [cleanMPUs, cleanMPUsLoop_withMutators tm c hdry, ih]

theorem cleanMultipartUploadsLoop_dryRun (tm : Time σ) (c : S3Cleaner σ)
    (hdry : c.dryRun = true) (fuel k n : Nat) (marker : Option String) (w : σ) :
    Quiet (cleanMultipartUploadsLoop tm c fuel k n marker w).calls := by
  induction k generalizing n marker w with
  | zero => simp [cleanMultipartUploadsLoop]
  | succ k ih =>
    rw [cleanMultipartUploadsLoop]
    generalize c.s3.ListObjects ⟨c.bucket, repositoriesRoot, "/", marker, 100⟩ w = p
    obtain ⟨res, w1⟩ := p
    cases res with
    | error e => simp [Event.isMutation]
    | ok objs =>
      simp only
      have hq := cleanCommonPrefixes_dryRun tm c hdry fuel objs.CommonPrefixes n w1
      generalize cleanCommonPrefixes tm c fuel objs.CommonPrefixes n w1 = r at hq
      cases hr : r.out with
      | error e => simp [hq, Event.isMutation]
      | panicked e => simp [hq, Event.isMutation]
      | outOfFuel => simp [hq, Event.isMutation]
      | ok total =>
        simp only
        have hq2 := cleanUploadFoldersLoop_dryRun tm c hdry objs.Prefix fuel none r.world
        simp only [cleanUploadFolders]
        generalize cleanUploadFoldersLoop tm c objs.Prefix fuel none r.world = r2 at hq2
        cases hr2 : r2.out with
        | error e => simp [hq, hq2, Event.isMutation]
        | panicked e => simp [hq, hq2, Event.isMutation]
        | outOfFuel => simp [hq, hq2, Event.isMutation]
        | ok u =>
          simp only
          split
          · split
            · simp [hq, hq2, ih, Event.isMutation]
            · simp [hq, hq2, Event.isMutation]
          · simp [hq, hq2, Event.isMutation]

theorem cleanMultipartUploadsLoop_withMutators (tm : Time σ) (c : S3Cleaner σ)
    (hdry : c.dryRun = true)
    (abort : AbortMultipartUploadInput → σ → Except Err Unit × σ)
    (delete : DeleteObjectInput → σ → Except Err Unit × σ)
    (fuel k n : Nat) (marker : Option String) (w : σ) :
    cleanMultipartUploadsLoop tm (c.withMutators abort delete) fuel k n marker w =
      cleanMultipartUploadsLoop tm c fuel k n marker w := by
  induction k generalizing n marker w with
  | zero => rfl
  | succ k ih =>
    rw [cleanMultipartUploadsLoop, cleanMultipartUploadsLoop]
    simp only [cleanCommonPrefixes_withMutators tm c hdry, cleanUploadFolders,
      cleanUploadFoldersLoop_withMutators tm c hdry, ih]
    rfl

/-- C3: in dry-run a run of `CleanMultipartUploads` issues no
`AbortMultipartUpload` and no `DeleteObject` (none of its interactions changes
the bucket), `cleanMPUs` returns the count 0 whenever it returns, and the
whole result of the run, its error included, is the same whatever the abort
and delete operations of the endpoint would have done: it is determined by the
listing and read responses and the clock alone. -/
theorem dryRun_issues_no_abort_and_no_delete (tm : Time σ) (c : S3Cleaner σ)
    (hdry : c.dryRun = true) (fuel : Nat) (w : σ) :
    (∀ inp res, Event.abortMultipartUpload inp res ∉ (CleanMultipartUploads tm c fuel w).calls) ∧
      (∀ inp res, Event.deleteObject inp res ∉ (CleanMultipartUploads tm c fuel w).calls) ∧
      (∀ pfx n, (cleanMPUs tm c pfx fuel w).out = .ok n → n = 0) ∧
      (∀ abort delete,
        CleanMultipartUploads tm (c.withMutators abort delete) fuel w =
          CleanMultipartUploads tm c fuel w) := by
  have hq := cleanMultipartUploadsLoop_dryRun tm c hdry fuel fuel 0 none w
  refine ⟨?_, ?_, ?_, ?_⟩
  · intro inp res hmem
    have := hq _ hmem
    simp [Event.isMutation] at this
  · intro inp res hmem
    have := hq _ hmem
    simp [Event.isMutation] at this
  · intro pfx n hn
    exact (cleanMPUsLoop_dryRun tm c hdry pfx fuel 0 none none w).2.1 n hn
  · intro abort delete
    exact cleanMultipartUploadsLoop_withMutators tm c hdry abort delete fuel fuel 0 none w

/-! ## A marker that does not parse (C9) -/

@[simp] theorem parsed_nil (tm : Time σ) : Parsed tm [] := by simp [Parsed]

@[simp] theorem parsed_cons (tm : Time σ) (ev : Event) (evs : List Event) :
    Parsed tm (ev :: evs) ↔ unparsedBody tm ev = none ∧ Parsed tm evs := by
  simp [Parsed]

@[simp] theorem parsed_append (tm : Time σ) (xs ys : List Event) :
    Parsed tm (xs ++ ys) ↔ Parsed tm xs ∧ Parsed tm ys := by
  simp only [Parsed, List.mem_append]
  constructor
  · intro h
    exact ⟨fun ev he => h ev (Or.inl he), fun ev he => h ev (Or.inr he)⟩
  · rintro ⟨h1, h2⟩ ev (he | he)
    · exact h1 ev he
    · exact h2 ev he

/-- A result keeps its shape when interactions without unparsable markers are
put before it and its outcome is replaced by one that panics exactly when it
did. -/
theorem PanicShape.wrap {α β : Type} (tm : Time σ) (pre : List Event) (r : Result σ α)
    (out : Outcome β) (w : σ) (hpre : Parsed tm pre) (hr : PanicShape tm r)
    (hout : ∀ e, out = .panicked e ↔ r.out = .panicked e) :
    PanicShape tm (⟨out, w, pre ++ r.calls⟩ : Result σ β) := by
  rcases hr with ⟨hc, hn⟩ | ⟨p, inp, body, e, hc, hp, hb, ho⟩
  · exact Or.inl ⟨by simp [hpre, hc], fun e he => hn e ((hout e).1 he)⟩
  · refine Or.inr ⟨pre ++ p, inp, body, e, by simp [hc], by simp [hpre, hp], hb, (hout e).2 ho⟩

theorem PanicShape.after {α : Type} (tm : Time σ) (pre : List Event) (r : Result σ α)
    (hpre : Parsed tm pre) (hr : PanicShape tm r) : PanicShape tm (r.after pre) :=
  PanicShape.wrap tm pre r r.out r.world hpre hr (fun _ => Iff.rfl)

/-- A result that did not panic read no unparsable marker. -/
theorem PanicShape.parsed {α : Type} (tm : Time σ) (r : Result σ α) (hr : PanicShape tm r)
    (hn : ∀ e, r.out ≠ .panicked e) : Parsed tm r.calls := by
  rcases hr with ⟨hc, _⟩ | ⟨p, inp, body, e, _, _, _, ho⟩
  · exact hc
  · exact absurd ho (hn e)

theorem cleanMPUsPage_parsed (tm : Time σ) (c : S3Cleaner σ) (ups : List MultipartUpload)
    (n : Nat) (w : σ) : Parsed tm (cleanMPUsPage tm c ups n w).2.2 := by
  intro ev hev
  obtain ⟨_, m, _, res, w1, h, _⟩ := cleanMPUsPage_calls tm c ups n w ev hev
  rw [h]
  rfl

theorem cleanMPUsLoop_panicShape (tm : Time σ) (c : S3Cleaner σ) (pfx : String) (fuel n : Nat)
    (km um : Option String) (w : σ) :
    Parsed tm (cleanMPUsLoop tm c pfx fuel n km um w).calls ∧
      ∀ e, (cleanMPUsLoop tm c pfx fuel n km um w).out ≠ .panicked e := by
  induction fuel generalizing n km um w with
  | zero => simp [cleanMPUsLoop]
  | succ fuel ih =>
    rw [cleanMPUsLoop_succ]
    cases hl : (c.s3.ListMultipartUploads ⟨c.bucket, pfx, 1000, km, um⟩ w).1 with
    | error e => simp [unparsedBody]
    | ok resp =>
      have hp := cleanMPUsPage_parsed tm c resp.Uploads n
        (c.s3.ListMultipartUploads ⟨c.bucket, pfx, 1000, km, um⟩ w).2
      simp only
      by_cases hcond : (resp.IsTruncated && decide (resp.Uploads.length > 0)) = true
      · cases hlast : resp.Uploads.getLast? with
        | some l =>
          simp only [hcond, if_true, Result.after_calls, Result.after_out, List.cons_append,
            parsed_cons, parsed_append, unparsedBody, true_and]
          exact ⟨⟨hp, (ih _ _ _ _).1⟩, (ih _ _ _ _).2⟩
        | none => simp [hcond, unparsedBody, hp]
      · simp [hcond, unparsedBody, hp]

theorem hoursSinceUploadStarted_panicShape (tm : Time σ) (c : S3Cleaner σ) (key : String)
    (w : σ) : PanicShape tm (hoursSinceUploadStarted tm c key w) := by
  cases hg : c.s3.GetObject ⟨c.bucket, key⟩ w with
  | mk res w1 =>
    cases res with
    | error e =>
      exact Or.inl (by simp [hoursSinceUploadStarted, hg, unparsedBody])
    | ok body =>
      cases hp : parseTimeFromStream tm body with
      | error e =>
        exact Or.inr ⟨[], ⟨c.bucket, key⟩, body, e, by simp [hoursSinceUploadStarted, hg, hp],
          by simp, hp, by simp [hoursSinceUploadStarted, hg, hp]⟩
      | ok t =>
        exact Or.inl (by simp [hoursSinceUploadStarted, hg, hp, unparsedBody])

theorem removeUploadFolderObjects_parsed (tm : Time σ) (c : S3Cleaner σ) (objs : List Object)
    (w : σ) :
    Parsed tm (removeUploadFolderObjects c objs w).calls ∧
      ∀ e, (removeUploadFolderObjects c objs w).out ≠ .panicked e := by
  induction objs generalizing w with
  | nil => simp [removeUploadFolderObjects]
  | cons o os ih =>
    by_cases hdry : c.dryRun = true
    · simp only [removeUploadFolderObjects, hdry, Bool.not_true, Bool.false_eq_true, if_false]
      exact ih w
    · have hdry : c.dryRun = false := by simpa using hdry
      cases hd : c.s3.DeleteObject ⟨c.bucket, o.Key⟩ w with
      | mk res w1 =>
        cases res with
        | error e => simp [removeUploadFolderObjects, hdry, hd, unparsedBody]
        | ok u =>
          have hstep : removeUploadFolderObjects c (o :: os) w =
              (removeUploadFolderObjects c os w1).after
                [Event.deleteObject ⟨c.bucket, o.Key⟩ (.ok u)] := by
            simp [removeUploadFolderObjects, hdry, hd]
          rw [hstep]
          simp only [Result.after_calls, Result.after_out, parsed_append, parsed_cons,
            parsed_nil, unparsedBody, and_true, true_and]
          exact ih w1

theorem removeUploadFolder_parsed (tm : Time σ) (c : S3Cleaner σ) (key : String) (w : σ) :
    Parsed tm (removeUploadFolder c key w).calls ∧
      ∀ e, (removeUploadFolder c key w).out ≠ .panicked e := by
  cases hl : c.s3.ListObjectsV2 ⟨c.bucket, uploadsFolder key, none, none⟩ w with
  | mk res w1 =>
    cases res with
    | error e => simp [removeUploadFolder, hl, unparsedBody]
    | ok objs =>
      have hstep : removeUploadFolder c key w =
          (removeUploadFolderObjects c objs.Contents w1).after
            [Event.listObjectsV2 ⟨c.bucket, uploadsFolder key, none, none⟩ (.ok objs)] := by
        simp [removeUploadFolder, hl]
      rw [hstep]
      simp only [Result.after_calls, Result.after_out, parsed_append, parsed_cons,
        parsed_nil, unparsedBody, and_true, true_and]
      exact removeUploadFolderObjects_parsed tm c objs.Contents w1

theorem PanicShape.of_parsed {α : Type} (tm : Time σ) (out : Outcome α) (w : σ)
    (evs : List Event) (hp : Parsed tm evs) (hn : ∀ e, out ≠ .panicked e) :
    PanicShape tm (⟨out, w, evs⟩ : Result σ α) := Or.inl ⟨hp, hn⟩

/-- A panic of an inner call that becomes the panic of the caller. -/
theorem PanicShape.rethrow {α β : Type} (tm : Time σ) (pre : List Event) (r : Result σ α)
    (e : Err) (w : σ) (hpre : Parsed tm pre) (hr : PanicShape tm r)
    (ho : r.out = .panicked e) :
    PanicShape tm (⟨.panicked e, w, pre ++ r.calls⟩ : Result σ β) := by
  refine PanicShape.wrap tm pre r (.panicked e) w hpre hr (fun e1 => ?_)
  rw [ho]
  simp

theorem cleanUploadFoldersPage_panicShape (tm : Time σ) (c : S3Cleaner σ) (objs : List Object)
    (w : σ) : PanicShape tm (cleanUploadFoldersPage tm c objs w) := by
  induction objs generalizing w with
  | nil => exact Or.inl (by simp [cleanUploadFoldersPage])
  | cons o os ih =>
    by_cases hm : isStartedAtKey o.Key = true
    · rw [cleanUploadFoldersPage]
      simp only [hm, if_true]
      have hs := hoursSinceUploadStarted_panicShape tm c o.Key w
      generalize hoursSinceUploadStarted tm c o.Key w = r at hs
      cases hr : r.out with
      | error e =>
        exact PanicShape.after tm _ _
          (PanicShape.parsed tm r hs (by simp [hr])) (ih _)
      | panicked e =>
        simpa using PanicShape.rethrow tm [] r e r.world (by simp) hs hr
      | outOfFuel =>
        exact PanicShape.of_parsed tm _ _ _ (PanicShape.parsed tm r hs (by simp [hr]))
          (by simp)
      | ok hours =>
        have hpr : Parsed tm r.calls := PanicShape.parsed tm r hs (by simp [hr])
        simp only
        split
        · obtain ⟨hp2, hn2⟩ := removeUploadFolder_parsed tm c o.Key r.world
          generalize removeUploadFolder c o.Key r.world = r2 at hp2 hn2
          cases hr2 : r2.out with
          | ok u => exact PanicShape.after tm _ _ (by simp [hpr, hp2]) (ih _)
          | error e => exact PanicShape.of_parsed tm _ _ _ (by simp [hpr, hp2]) (by simp)
          | panicked e => exact absurd hr2 (hn2 e)
          | outOfFuel => exact PanicShape.of_parsed tm _ _ _ (by simp [hpr, hp2]) (by simp)
        · exact PanicShape.after tm _ _ hpr (ih _)
    · have hf : isStartedAtKey o.Key = false := by simpa using hm
      rw [cleanUploadFoldersPage_cons_skip _ _ _ _ _ hf]
      exact ih w

theorem cleanUploadFoldersLoop_panicShape (tm : Time σ) (c : S3Cleaner σ) (pfx : String)
    (fuel : Nat) (tok : Option String) (w : σ) :
    PanicShape tm (cleanUploadFoldersLoop tm c pfx fuel tok w) := by
  induction fuel generalizing tok w with
  | zero => exact Or.inl (by simp [cleanUploadFoldersLoop])
  | succ fuel ih =>
    rw [cleanUploadFoldersLoop_succ]
    cases hl : (c.s3.ListObjectsV2 ⟨c.bucket, pfx, some 100, tok⟩ w).1 with
    | error e => exact Or.inl (by simp [unparsedBody])
    | ok objs =>
      simp only
      have hs := cleanUploadFoldersPage_panicShape tm c objs.Contents
        (c.s3.ListObjectsV2 ⟨c.bucket, pfx, some 100, tok⟩ w).2
      generalize cleanUploadFoldersPage tm c objs.Contents
        (c.s3.ListObjectsV2 ⟨c.bucket, pfx, some 100, tok⟩ w).2 = r at hs
      have hev : Parsed tm [Event.listObjectsV2 ⟨c.bucket, pfx, some 100, tok⟩ (.ok objs)] := by
        simp [unparsedBody]
      cases hr : r.out with
      | ok u =>
        have hpr : Parsed tm r.calls := PanicShape.parsed tm r hs (by simp [hr])
        simp only
        split
        · exact PanicShape.after tm _ _ (by simp [hpr, unparsedBody]) (ih _ _)
        · exact PanicShape.of_parsed tm _ _ _ (by simp [hpr, unparsedBody]) (by simp)
      | error e =>
        exact PanicShape.of_parsed tm _ _ _
          (by simp [PanicShape.parsed tm r hs (by simp [hr]), unparsedBody]) (by simp)
      | panicked e =>
        simpa using PanicShape.rethrow tm _ r e r.world hev hs hr
      | outOfFuel =>
        exact PanicShape.of_parsed tm _ _ _
          (by simp [PanicShape.parsed tm r hs (by simp [hr]), unparsedBody]) (by simp)

theorem cleanCommonPrefixes_panicShape (tm : Time σ) (c : S3Cleaner σ) (fuel : Nat)
    (cps : List String) (n : Nat) (w : σ) :
    Parsed tm (cleanCommonPrefixes tm c fuel cps n w).calls ∧
      ∀ e, (cleanCommonPrefixes tm c fuel cps n w).out ≠ .panicked e := by
  induction cps generalizing n w with
  | nil => simp [cleanCommonPrefixes]
  | cons cp rest ih =>
    rw [cleanCommonPrefixes]
    obtain ⟨hp, hn⟩ := cleanMPUsLoop_panicShape tm c cp fuel 0 none none w
    simp only [cleanMPUs]
    generalize cleanMPUsLoop tm c cp fuel 0 none none w = r at hp hn
    cases hr : r.out with
    | ok k =>
      simp only [Result.after_calls, Result.after_out, parsed_append]
      exact ⟨⟨hp, (ih _ _).1⟩, (ih _ _).2⟩
    | error e => simp [hp]
    | panicked e => exact absurd hr (hn e)
    | outOfFuel => simp [hp]

theorem cleanMultipartUploadsLoop_panicShape (tm : Time σ) (c : S3Cleaner σ) (fuel k n : Nat)
    (marker : Option String) (w : σ) :
    PanicShape tm (cleanMultipartUploadsLoop tm c fuel k n marker w) := by
  induction k generalizing n marker w with
  | zero => exact Or.inl (by simp [cleanMultipartUploadsLoop])
  | succ k ih =>
    rw [cleanMultipartUploadsLoop]
    generalize c.s3.ListObjects ⟨c.bucket, repositoriesRoot, "/", marker, 100⟩ w = p
    obtain ⟨res, w1⟩ := p
    cases res with
    | error e => exact Or.inl (by simp [unparsedBody])
    | ok objs =>
      simp only
      obtain ⟨hp, hn⟩ := cleanCommonPrefixes_panicShape tm c fuel objs.CommonPrefixes n w1
      generalize cleanCommonPrefixes tm c fuel objs.CommonPrefixes n w1 = r at hp hn
      have hhere : Parsed tm
          (Event.listObjects ⟨c.bucket, repositoriesRoot, "/", marker, 100⟩ (.ok objs) ::
            r.calls) := by
        simp [hp, unparsedBody]
      cases hr : r.out with
      | error e => exact PanicShape.of_parsed tm _ _ _ hhere (by simp)
      | panicked e => exact absurd hr (hn e)
      | outOfFuel => exact PanicShape.of_parsed tm _ _ _ hhere (by simp)
      | ok total =>
        simp only
        have hs := cleanUploadFoldersLoop_panicShape tm c objs.Prefix fuel none r.world
        simp only [cleanUploadFolders]
        generalize cleanUploadFoldersLoop tm c objs.Prefix fuel none r.world = r2 at hs
        cases hr2 : r2.out with
        | error e =>
          exact PanicShape.of_parsed tm _ _ _
            (by simp [hp, unparsedBody, PanicShape.parsed tm r2 hs (by simp [hr2])]) (by simp)
        | panicked e => exact PanicShape.rethrow tm _ r2 e r2.world hhere hs hr2
        | outOfFuel =>
          exact PanicShape.of_parsed tm _ _ _
            (by simp [hp, unparsedBody, PanicShape.parsed tm r2 hs (by simp [hr2])]) (by simp)
        | ok u =>
          have hp2 : Parsed tm r2.calls := PanicShape.parsed tm r2 hs (by simp [hr2])
          simp only
          split
          · split
            · exact PanicShape.after tm _ _ (by simp [hp, hp2, unparsedBody]) (ih _ _ _)
            · exact PanicShape.of_parsed tm _ _ _ (by simp [hp, hp2, unparsedBody]) (by simp)
          · exact PanicShape.of_parsed tm _ _ _ (by simp [hp, hp2, unparsedBody]) (by simp)

/-- C9: a marker whose body was read but is not a timestamp is fatal.  Whenever
a run of `CleanMultipartUploads` has read such a body, that read is the last
interaction of the run (no further marker is read, nothing is listed or
deleted afterwards) and the run ends in a panic carrying the parse error: the
marker is not logged and skipped. -/
theorem parse_failure_of_marker_is_fatal (tm : Time σ) (c : S3Cleaner σ) (fuel : Nat) (w : σ)
    (pre post : List Event) (inp : GetObjectInput) (body : Body) (e : Err)
    (hcalls : (CleanMultipartUploads tm c fuel w).calls =
      pre ++ Event.getObject inp (.ok body) :: post)
    (hparse : parseTimeFromStream tm body = .error e) :
    post = [] ∧ (CleanMultipartUploads tm c fuel w).out = .panicked e := by
  have hbad : unparsedBody tm (Event.getObject inp (.ok body)) = some e := by
    simp [unparsedBody, hparse]
  have hs := cleanMultipartUploadsLoop_panicShape tm c fuel fuel 0 none w
  change PanicShape tm (CleanMultipartUploads tm c fuel w) at hs
  generalize CleanMultipartUploads tm c fuel w = r at hs hcalls
  rcases hs with ⟨hp, _⟩ | ⟨p, inp1, body1, e1, hc, hp, hb, ho⟩
  · have := hp (Event.getObject inp (.ok body)) (by rw [hcalls]; simp)
    rw [hbad] at this
    cases this
  · rw [hcalls] at hc
    rcases List.eq_nil_or_concat post with hnil | ⟨q, z, hq⟩
    · subst hnil
      have h2 := List.append_inj' hc rfl
      have h3 : Event.getObject inp (.ok body) = Event.getObject inp1 (.ok body1) := by
        simpa using h2.2
      simp only [Event.getObject.injEq, Except.ok.injEq] at h3
      obtain ⟨_, hbody⟩ := h3
      subst hbody
      rw [hparse] at hb
      cases hb
      exact ⟨rfl, ho⟩
    · subst hq
      have hc2 : (pre ++ Event.getObject inp (.ok body) :: q) ++ [z] =
          p ++ [Event.getObject inp1 (.ok body1)] := by
        simpa [List.append_assoc] using hc
      have h2 := List.append_inj' hc2 rfl
      have := hp (Event.getObject inp (.ok body)) (by rw [← h2.1]; simp)
      rw [hbad] at this
      cases this

/-! ## Every stale upload is aborted once (C2) -/

@[simp] theorem abortsOf_nil : abortsOf [] = [] := rfl

@[simp] theorem abortsOf_append (xs ys : List Event) :
    abortsOf (xs ++ ys) = abortsOf xs ++ abortsOf ys := by
  simp [abortsOf, List.filterMap_append]

@[simp] theorem abortsOf_abort (inp : AbortMultipartUploadInput) (res : Except Err Unit)
    (evs : List Event) :
    abortsOf (Event.abortMultipartUpload inp res :: evs) = (inp, res) :: abortsOf evs := by
  simp [abortsOf, List.filterMap_cons]

@[simp] theorem abortsOf_list (inp : ListMultipartUploadsInput)
    (res : Except Err ListMultipartUploadsOutput) (evs : List Event) :
    abortsOf (Event.listMultipartUploads inp res :: evs) = abortsOf evs := by
  simp [abortsOf, List.filterMap_cons]

@[simp] theorem abortedCount_nil : abortedCount [] = 0 := rfl

theorem abortedCount_append (xs ys : List Event) :
    abortedCount (xs ++ ys) = abortedCount xs + abortedCount ys := by
  simp [abortedCount, List.filter_append]

@[simp] theorem abortedCount_list (inp : ListMultipartUploadsInput)
    (res : Except Err ListMultipartUploadsOutput) (evs : List Event) :
    abortedCount (Event.listMultipartUploads inp res :: evs) = abortedCount evs := by
  simp [abortedCount]

/-- Outside dry-run a page aborts its stale uploads, each once and in order,
and adds the successful aborts to the count. -/
theorem cleanMPUsPage_aborts (tm : Time σ) (c : S3Cleaner σ) (hdry : c.dryRun = false)
    (w0 : σ) (ups : List MultipartUpload) (n : Nat) (w : σ)
    (hage : ∀ m ∈ ups, ∀ w1, staleAt tm w1 m = staleAt tm w0 m) :
    (abortsOf (cleanMPUsPage tm c ups n w).2.2).map Prod.fst =
        (ups.filter (staleAt tm w0)).map (abortRequest c) ∧
      (cleanMPUsPage tm c ups n w).1 = n + abortedCount (cleanMPUsPage tm c ups n w).2.2 := by
  induction ups generalizing n w with
  | nil => simp [cleanMPUsPage]
  | cons m rest ih =>
    have hrest : ∀ m1 ∈ rest, ∀ w1, staleAt tm w1 m1 = staleAt tm w0 m1 :=
      fun m1 h1 => hage m1 (List.mem_cons_of_mem _ h1)
    have hm := hage m (List.mem_cons_self _ _) w
    rw [cleanMPUsPage_cons]
    by_cases hgt : hoursBetween (tm.Now w).1 m.Initiated > cleanupHours
    · have hst : staleAt tm w0 m = true := by rw [← hm]; simp [staleAt, hgt]
      simp only [hgt, if_true, hdry, Bool.not_false, List.filter_cons, hst, List.map_cons]
      cases hab : (c.s3.AbortMultipartUpload ⟨c.bucket, m.Key, m.UploadId⟩ (tm.Now w).2).1 with
      | error e =>
        obtain ⟨h1, h2⟩ := ih n
          (c.s3.AbortMultipartUpload ⟨c.bucket, m.Key, m.UploadId⟩ (tm.Now w).2).2 hrest
        simp only [abortsOf_abort, List.map_cons]
        refine ⟨by rw [h1]; rfl, ?_⟩
        rw [h2]
        simp [abortedCount, List.filter_cons, Except.isOk, Except.toBool]
      | ok u =>
        obtain ⟨h1, h2⟩ := ih (n + 1)
          (c.s3.AbortMultipartUpload ⟨c.bucket, m.Key, m.UploadId⟩ (tm.Now w).2).2 hrest
        simp only [abortsOf_abort, List.map_cons]
        refine ⟨by rw [h1]; rfl, ?_⟩
        rw [h2]
        simp [abortedCount, List.filter_cons, Except.isOk, Except.toBool]
        omega
    · have hst : staleAt tm w0 m = false := by rw [← hm]; simp [staleAt, hgt]
      simp only [hgt, if_false, List.filter_cons, hst, Bool.false_eq_true]
      exact ih n _ hrest

/-- In a listing without repeated (key, upload id) pairs the uploads after an
upload named by the marker pair are those that follow it. -/
theorem uploadsAfter_of_nodup (pre : List MultipartUpload) (l : MultipartUpload)
    (post : List MultipartUpload)
    (hnd : ((pre ++ l :: post).map fun m => (m.Key, m.UploadId)).Nodup) :
    uploadsAfter (some l.Key) (some l.UploadId) (pre ++ l :: post) = post := by
  induction pre with
  | nil => simp [uploadsAfter]
  | cons a pre ih =>
    simp only [List.cons_append, List.map_cons, List.nodup_cons] at hnd
    have hne : ¬ (a.Key = l.Key ∧ a.UploadId = l.UploadId) := by
      rintro ⟨h1, h2⟩
      apply hnd.1
      rw [h1, h2]
      simp
    simp only [List.cons_append, uploadsAfter, hne, if_false]
    exact ih hnd.2

theorem uploadsAfter_none (all : List MultipartUpload) : uploadsAfter none none all = all := by
  cases all <;> simp [uploadsAfter]

/-- The loop of `cleanMPUs` on a stable listing served in pages of a positive
size: it ends normally, aborts the stale uploads that were still to come, each
once and in order, and adds the successful aborts to the count. -/
theorem cleanMPUsLoop_aborts (tm : Time σ) (c : S3Cleaner σ) (pfx : String)
    (all : List MultipartUpload) (size : Nat) (w0 : σ)
    (hdry : c.dryRun = false) (hsize : 0 < size)
    (hnodup : (all.map fun m => (m.Key, m.UploadId)).Nodup)
    (hlist : ∀ km um w,
      (c.s3.ListMultipartUploads ⟨c.bucket, pfx, 1000, km, um⟩ w).1 =
        .ok (uploadsPage all size km um))
    (hage : ∀ m ∈ all, ∀ w1, staleAt tm w1 m = staleAt tm w0 m)
    (fuel : Nat) (done rest : List MultipartUpload) (n : Nat) (km um : Option String) (w : σ)
    (hall : all = done ++ rest) (hafter : uploadsAfter km um all = rest)
    (hfuel : rest.length < fuel) :
    ∃ k, (cleanMPUsLoop tm c pfx fuel n km um w).out = .ok k ∧
      (abortsOf (cleanMPUsLoop tm c pfx fuel n km um w).calls).map Prod.fst =
        (rest.filter (staleAt tm w0)).map (abortRequest c) ∧
      k = n + abortedCount (cleanMPUsLoop tm c pfx fuel n km um w).calls := by
  induction fuel generalizing done rest n km um w with
  | zero => omega
  | succ fuel ih =>
    have hrestmem : ∀ m ∈ rest, m ∈ all := fun m hm => by rw [hall]; simp [hm]
    have hpageage : ∀ m ∈ rest.take size, ∀ w1, staleAt tm w1 m = staleAt tm w0 m :=
      fun m hm => hage m (hrestmem m (List.mem_of_mem_take hm))
    rw [cleanMPUsLoop_succ]
    simp only [hlist km um w, uploadsPage, hafter]
    obtain ⟨h1, h2⟩ := cleanMPUsPage_aborts tm c hdry w0 (rest.take size) n
      (c.s3.ListMultipartUploads ⟨c.bucket, pfx, 1000, km, um⟩ w).2 hpageage
    by_cases htr : size < rest.length
    · have hlen : (List.take size rest).length > 0 := by
        rw [List.length_take]
        omega
      cases hlast : (List.take size rest).getLast? with
      | none =>
        rw [List.getLast?_eq_none_iff] at hlast
        rw [hlast] at hlen
        simp at hlen
      | some l =>
        obtain ⟨ys, hys⟩ := List.getLast?_eq_some_iff.1 hlast
        have hsplit : all = (done ++ ys) ++ l :: List.drop size rest := by
          rw [hall]
          conv_lhs => rw [← List.take_append_drop size rest, hys]
          simp [List.append_assoc]
        have hnext : uploadsAfter (some l.Key) (some l.UploadId) all = List.drop size rest := by
          rw [hsplit]
          apply uploadsAfter_of_nodup
          rw [← hsplit]
          exact hnodup
        have hall2 : all = (done ++ List.take size rest) ++ List.drop size rest := by
          rw [hall, List.append_assoc, List.take_append_drop]
        have hfuel2 : (List.drop size rest).length < fuel := by
          rw [List.length_drop]
          omega
        obtain ⟨k, hk1, hk2, hk3⟩ := ih (done ++ List.take size rest) (List.drop size rest)
          (cleanMPUsPage tm c (List.take size rest) n
            (c.s3.ListMultipartUploads ⟨c.bucket, pfx, 1000, km, um⟩ w).2).1
          (some l.Key) (some l.UploadId)
          (cleanMPUsPage tm c (List.take size rest) n
            (c.s3.ListMultipartUploads ⟨c.bucket, pfx, 1000, km, um⟩ w).2).2.1
          hall2 hnext hfuel2
        have hcond : (decide (size < rest.length) && decide ((List.take size rest).length > 0))
            = true := by
          simp only [htr, decide_True, hlen, Bool.and_self]
        simp only [hcond, if_true, Result.after_out, Result.after_calls, List.cons_append,
          abortsOf_list, abortsOf_append, List.map_append, abortedCount_list,
          abortedCount_append]
        refine ⟨k, hk1, ?_, ?_⟩
        · rw [h1, hk2, ← List.map_append, ← List.filter_append, List.take_append_drop]
        · rw [hk3, h2]
          omega
    · have htake : List.take size rest = rest := List.take_of_length_le (by omega)
      have hcond : (decide (size < rest.length) && decide ((List.take size rest).length > 0))
          = false := by
        simp [htr]
      simp only [hcond, Bool.false_eq_true, if_false, abortsOf_list, abortedCount_list]
      refine ⟨_, rfl, ?_, h2⟩
      rw [h1, htake]

/-- C2: outside dry-run, on a stable set of multipart uploads without repeated
(key, upload id) pairs, served by a client that honours the marker pair and
hands the uploads out in pages of any positive size, `cleanMPUs` returns
without error once it has fuel for the pages, has then issued exactly one
`AbortMultipartUpload` for each upload whose age in whole hours exceeds
`cleanupHours`, in listing order and for no other upload, whether or not
earlier aborts failed, and returns the number of aborts that succeeded. -/
theorem cleanMPUs_aborts_each_stale_upload_once (tm : Time σ) (c : S3Cleaner σ) (pfx : String)
    (all : List MultipartUpload) (size : Nat) (fuel : Nat) (w : σ)
    (hdry : c.dryRun = false) (hsize : 0 < size)
    (hnodup : (all.map fun m => (m.Key, m.UploadId)).Nodup)
    (hlist : ∀ km um w1,
      (c.s3.ListMultipartUploads ⟨c.bucket, pfx, 1000, km, um⟩ w1).1 =
        .ok (uploadsPage all size km um))
    (hage : ∀ m ∈ all, ∀ w1, staleAt tm w1 m = staleAt tm w m)
    (hfuel : all.length < fuel) :
    ∃ n, (cleanMPUs tm c pfx fuel w).out = .ok n ∧
      (abortsOf (cleanMPUs tm c pfx fuel w).calls).map Prod.fst =
        (all.filter (staleAt tm w)).map (abortRequest c) ∧
      n = abortedCount (cleanMPUs tm c pfx fuel w).calls := by
  obtain ⟨k, h1, h2, h3⟩ := cleanMPUsLoop_aborts tm c pfx all size w hdry hsize hnodup hlist
    hage fuel [] all 0 none none w rfl (uploadsAfter_none all) hfuel
  exact ⟨k, h1, h2, by simpa using h3⟩

/-! ## The statements on concrete buckets -/

/-- Witness of C1: an upload initiated 12 hours and 59 minutes before the
clock reading has an age of exactly 12 whole hours, and `cleanMPUs`, outside
dry-run, issues no abort for it. -/
theorem cleanMPUs_no_abort_at_most_cleanupHours_witness :
    hoursBetween (newYear2024 + 12 * hour + 3540000000000) newYear2024 = 12 ∧
      ∀ bucket res, Event.abortMultipartUpload ⟨bucket, "repo1/blob", "upload-1"⟩ res ∉
        (cleanMPUs (bucketTime (newYear2024 + 12 * hour + 3540000000000))
          (bucketCleaner false) "repo1/" 5 (bucketOf [] [uploadAt newYear2024])).calls :=
  ⟨by decide,
    cleanMPUs_no_abort_at_most_cleanupHours _ _ _ _ _ _ _ (by
      intro linp resp hmem m hm _ _ w1
      have hc : (cleanMPUs (bucketTime (newYear2024 + 12 * hour + 3540000000000))
          (bucketCleaner false) "repo1/" 5 (bucketOf [] [uploadAt newYear2024])).calls =
          [Event.listMultipartUploads ⟨"registry", "repo1/", 1000, none, none⟩
            (.ok ⟨[uploadAt newYear2024], false⟩)] := by decide
      rw [hc] at hmem
      simp only [List.mem_singleton, Event.listMultipartUploads.injEq, Except.ok.injEq] at hmem
      obtain ⟨_, rfl⟩ := hmem
      simp only [List.mem_singleton] at hm
      subst hm
      show hoursBetween (newYear2024 + 12 * hour + 3540000000000) newYear2024 ≤ cleanupHours
      decide)⟩

/-- Witness of C2: a single upload initiated 13 hours ago, served in one page,
is aborted exactly once and the returned count is 1; the same run against the
simulated endpoint leaves no upload behind. -/
theorem cleanMPUs_aborts_each_stale_upload_once_witness :
    (∃ n, (cleanMPUs (bucketTime (newYear2024 + 13 * hour))
          (stableCleaner [uploadAt newYear2024] 1000) "repo1/" 5
          (bucketOf [] [uploadAt newYear2024])).out = .ok n ∧
        (abortsOf (cleanMPUs (bucketTime (newYear2024 + 13 * hour))
          (stableCleaner [uploadAt newYear2024] 1000) "repo1/" 5
          (bucketOf [] [uploadAt newYear2024])).calls).map Prod.fst =
          ([uploadAt newYear2024].filter
            (staleAt (bucketTime (newYear2024 + 13 * hour))
              (bucketOf [] [uploadAt newYear2024]))).map
            (abortRequest (stableCleaner [uploadAt newYear2024] 1000)) ∧
        n = abortedCount (cleanMPUs (bucketTime (newYear2024 + 13 * hour))
          (stableCleaner [uploadAt newYear2024] 1000) "repo1/" 5
          (bucketOf [] [uploadAt newYear2024])).calls) ∧
      (cleanMPUs (bucketTime (newYear2024 + 13 * hour)) (bucketCleaner false) "repo1/" 5
        (bucketOf [] [uploadAt newYear2024])).out = .ok 1 ∧
      abortsOf (cleanMPUs (bucketTime (newYear2024 + 13 * hour)) (bucketCleaner false)
        "repo1/" 5 (bucketOf [] [uploadAt newYear2024])).calls =
        [(⟨"registry", "repo1/blob", "upload-1"⟩, .ok ())] ∧
      (cleanMPUs (bucketTime (newYear2024 + 13 * hour)) (bucketCleaner false) "repo1/" 5
        (bucketOf [] [uploadAt newYear2024])).world.uploads = [] :=
  ⟨cleanMPUs_aborts_each_stale_upload_once (bucketTime (newYear2024 + 13 * hour))
      (stableCleaner [uploadAt newYear2024] 1000) "repo1/" [uploadAt newYear2024] 1000 5
      (bucketOf [] [uploadAt newYear2024]) rfl (by decide) (by decide)
      (fun _ _ _ => rfl) (fun _ _ _ => rfl) (by decide),
    by decide, by decide, by decide⟩

/-- Witness of C3: a dry run over a registry with a stale multipart upload and
a stale upload session issues neither an abort nor a deletion, while the same
run outside dry-run issues both. -/
theorem dryRun_issues_no_abort_and_no_delete_witness :
    ((∀ inp res, Event.abortMultipartUpload inp res ∉
          (CleanMultipartUploads (bucketTime (newYear2024 + 48 * hour)) (bucketCleaner true) 5
            staleRegistry).calls) ∧
        (∀ inp res, Event.deleteObject inp res ∉
          (CleanMultipartUploads (bucketTime (newYear2024 + 48 * hour)) (bucketCleaner true) 5
            staleRegistry).calls)) ∧
      ((CleanMultipartUploads (bucketTime (newYear2024 + 48 * hour)) (bucketCleaner false) 5
        staleRegistry).calls.filter Event.isMutation).length = 3 :=
  ⟨⟨(dryRun_issues_no_abort_and_no_delete (bucketTime (newYear2024 + 48 * hour))
        (bucketCleaner true) rfl 5 staleRegistry).1,
      (dryRun_issues_no_abort_and_no_delete (bucketTime (newYear2024 + 48 * hour))
        (bucketCleaner true) rfl 5 staleRegistry).2.1⟩,
    by decide⟩

/-- Witness of C9: the first marker of the registry holds `yesterday`; the run
reads it, panics with the parse error and never reaches the stale session
behind it. -/
theorem parse_failure_of_marker_is_fatal_witness :
    parseTimeFromStream (bucketTime (newYear2024 + 48 * hour)) (.ok "yesterday") =
        .error "parsing time: cannot parse" ∧
      (([] : List Event) = [] ∧
        (CleanMultipartUploads (bucketTime (newYear2024 + 48 * hour)) (bucketCleaner false) 5
          brokenMarkerRegistry).out = .panicked "parsing time: cannot parse") ∧
      ∀ inp res, Event.deleteObject inp res ∉
        (CleanMultipartUploads (bucketTime (newYear2024 + 48 * hour)) (bucketCleaner false) 5
          brokenMarkerRegistry).calls :=
  ⟨by decide,
    parse_failure_of_marker_is_fatal (bucketTime (newYear2024 + 48 * hour))
      (bucketCleaner false) 5 brokenMarkerRegistry
      ((CleanMultipartUploads (bucketTime (newYear2024 + 48 * hour)) (bucketCleaner false) 5
        brokenMarkerRegistry).calls.take 3) []
      ⟨"registry", "docker/registry/v2/repositories/app/_uploads/s0/startedat"⟩
      (.ok "yesterday") "parsing time: cannot parse" (by decide) (by decide),
    by
      have h : ((CleanMultipartUploads (bucketTime (newYear2024 + 48 * hour))
          (bucketCleaner false) 5 brokenMarkerRegistry).calls.filter Event.isMutation) = [] := by
        decide
      intro inp res hmem
      have : Event.deleteObject inp res ∈ ((CleanMultipartUploads
          (bucketTime (newYear2024 + 48 * hour)) (bucketCleaner false) 5
          brokenMarkerRegistry).calls.filter Event.isMutation) :=
        List.mem_filter.2 ⟨hmem, rfl⟩
      rw [h] at this
      exact absurd this (List.not_mem_nil _)⟩

/-- The session of the specification scenario, looked at 48 hours after it
started: `cleanUploadFolders` deletes its four objects and returns no error. -/
theorem cleanUploadFolders_removes_stale_session :
    (cleanUploadFolders (bucketTime (newYear2024 + 48 * hour)) (bucketCleaner false) "repo1/" 5
        oneSession).out = .ok () ∧
      (cleanUploadFolders (bucketTime (newYear2024 + 48 * hour)) (bucketCleaner false) "repo1/" 5
        oneSession).world.objects = [] := by
  decide

/-- The same session looked at 6 hours after it started: nothing is deleted
and the four objects remain. -/
theorem cleanUploadFolders_keeps_fresh_session :
    (cleanUploadFolders (bucketTime (newYear2024 + 6 * hour)) (bucketCleaner false) "repo1/" 5
        oneSession).calls.filter Event.isMutation = [] ∧
      (cleanUploadFolders (bucketTime (newYear2024 + 6 * hour)) (bucketCleaner false) "repo1/" 5
        oneSession).world.objects = oneSession.objects := by
  decide

/-- C4 (evaluated on the code): with the sessions `s1` (48 hours old) and
`s10` (1 hour old) in one repository, served by an endpoint that lists exactly
the keys starting with the requested prefix, `cleanUploadFolders` deletes the
data object and the marker of `s10`: the folder name it derives for `s1`,
`repo1/_uploads/s1`, is also the beginning of the keys of `s10`. -/
theorem cleanUploadFolders_deletes_fresh_session :
    (hoursSinceUploadStarted (bucketTime (newYear2024 + 48 * hour)) (bucketCleaner false)
        "repo1/_uploads/s10/startedat" twoSessions).out = .ok 1 ∧
      uploadsFolder "repo1/_uploads/s1/startedat" = "repo1/_uploads/s1" ∧
      Event.deleteObject ⟨"registry", "repo1/_uploads/s10/data"⟩ (.ok ()) ∈
        (cleanUploadFolders (bucketTime (newYear2024 + 48 * hour)) (bucketCleaner false)
          "repo1/" 5 twoSessions).calls ∧
      Event.deleteObject ⟨"registry", "repo1/_uploads/s10/startedat"⟩ (.ok ()) ∈
        (cleanUploadFolders (bucketTime (newYear2024 + 48 * hour)) (bucketCleaner false)
          "repo1/" 5 twoSessions).calls ∧
      (cleanUploadFolders (bucketTime (newYear2024 + 48 * hour)) (bucketCleaner false)
        "repo1/" 5 twoSessions).world.objects = [] := by
  decide

set_option maxRecDepth 1000000 in
set_option maxHeartbeats 4000000 in
/-- C7 (evaluated on the code): on a registry with 101 repositories and no
object directly under the repositories root, a run of `CleanMultipartUploads`
returns no error after a single `ListObjects` page: `cleanMPUs` was invoked
for the first 100 repositories, once each, and never for the repository
`r100`.  The first page is truncated but has no `Contents`, from which the
code takes its marker, so the loop ends. -/
theorem cleanMultipartUploads_skips_repository_after_first_page :
    (CleanMultipartUploads (bucketTime 0) (bucketCleaner false) 5
        (manyRepositories 101)).out = .ok () ∧
      cleanedPrefixes (CleanMultipartUploads (bucketTime 0) (bucketCleaner false) 5
        (manyRepositories 101)).calls =
        (List.range 100).map (fun i => repositoriesRoot ++ repositoryName i ++ "/") ∧
      repositoriesRoot ++ repositoryName 100 ++ "/" ∉
        (List.range 100).map (fun i => repositoriesRoot ++ repositoryName i ++ "/") ∧
      (bucketS3.ListObjects ⟨"registry", repositoriesRoot, "/", none, 100⟩
        (manyRepositories 101)).1.toOption.map
          (fun objs => (objs.IsTruncated, objs.Contents, objs.CommonPrefixes.length)) =
        some (true, [], 100) := by
  decide

/-- The listing of `removeUploadFolder` is a single request: when the endpoint
serves at most two keys per page, the removal of a session of four objects
returns no error after two deletions and leaves the other two objects in the
bucket. -/
theorem removeUploadFolder_reads_one_page :
    (removeUploadFolder (bucketCleaner false) "repo1/_uploads/s1/startedat"
        { oneSession with pageLimit := 2 }).out = .ok () ∧
      (removeUploadFolder (bucketCleaner false) "repo1/_uploads/s1/startedat"
        { oneSession with pageLimit := 2 }).world.objects.map Prod.fst =
        ["repo1/_uploads/s1/data3", "repo1/_uploads/s1/startedat"] := by
  decide

/-- The loop of `CleanMultipartUploads` never asks for a second page after a
page without `Contents`, truncated or not: with any amount of fuel it does what
it does with fuel for one page. -/
theorem cleanMultipartUploadsLoop_one_page_without_contents (tm : Time σ) (c : S3Cleaner σ)
    (fuel k n : Nat) (marker : Option String) (w : σ) (objs : ListObjectsOutput)
    (hl : (c.s3.ListObjects ⟨c.bucket, repositoriesRoot, "/", marker, 100⟩ w).1 = .ok objs)
    (hc : objs.Contents = []) :
    cleanMultipartUploadsLoop tm c fuel (k + 1) n marker w =
      cleanMultipartUploadsLoop tm c fuel 1 n marker w := by
  rw [cleanMultipartUploadsLoop, cleanMultipartUploadsLoop]
  generalize hp : c.s3.ListObjects ⟨c.bucket, repositoriesRoot, "/", marker, 100⟩ w = p at hl
  obtain ⟨res, w1⟩ := p
  simp only at hl
  subst hl
  simp [hc]

/-! ## Folder removal against the contents of the bucket (C6) -/

/-- After a removal loop that ended without error, outside dry-run, every key
left in the bucket was there before and is none of the keys the loop was
given.  `keys` reads the keys of the bucket off the environment. -/
theorem removeUploadFolderObjects_keys (c : S3Cleaner σ) (keys : σ → List String)
    (hdry : c.dryRun = false)
    (hdel : ∀ k w1 u w2, c.s3.DeleteObject ⟨c.bucket, k⟩ w1 = (.ok u, w2) →
      keys w2 = (keys w1).filter (fun k1 => k1 != k))
    (objs : List Object) (w : σ)
    (hok : (removeUploadFolderObjects c objs w).out = .ok ()) :
    ∀ k ∈ keys (removeUploadFolderObjects c objs w).world,
      k ∈ keys w ∧ k ∉ objs.map Object.Key := by
  induction objs generalizing w with
  | nil =>
    intro k hk
    exact ⟨by simpa [removeUploadFolderObjects] using hk, by simp⟩
  | cons o os ih =>
    cases hd : c.s3.DeleteObject ⟨c.bucket, o.Key⟩ w with
    | mk res w1 =>
      cases res with
      | error e => simp [removeUploadFolderObjects, hdry, hd] at hok
      | ok u =>
        have hstep : removeUploadFolderObjects c (o :: os) w =
            (removeUploadFolderObjects c os w1).after
              [Event.deleteObject ⟨c.bucket, o.Key⟩ (.ok u)] := by
          simp [removeUploadFolderObjects, hdry, hd]
        rw [hstep] at hok ⊢
        intro k hk
        obtain ⟨h1, h2⟩ := ih w1 hok k hk
        rw [hdel o.Key w u w1 hd, List.mem_filter] at h1
        refine ⟨h1.1, ?_⟩
        simp only [List.map_cons, List.mem_cons, not_or]
        exact ⟨by simpa using h1.2, h2⟩

/-- C6 (amended): outside dry-run, on a bucket whose keys under the derived
folder prefix are all returned by the listing request of `removeUploadFolder`,
the call ends in one of three ways.  The listing request fails: it returns
that error and issues no `DeleteObject`.  Or it returns no error, has issued
one successful `DeleteObject` for every listed object, and no object under
the derived folder prefix is left in the bucket.  Or a `DeleteObject` fails:
it returns that error at the first failure and issues no `DeleteObject` for
any later object.  Here `keys` reads the keys of the bucket off the
environment, and a successful `DeleteObject` removes its key from them. -/
theorem removeUploadFolder_all_or_nothing (c : S3Cleaner σ) (keys : σ → List String)
    (key : String) (w : σ) (hdry : c.dryRun = false)
    (hlist : ∀ objs w1,
      c.s3.ListObjectsV2 ⟨c.bucket, uploadsFolder key, none, none⟩ w = (.ok objs, w1) →
        objs.Contents.map Object.Key =
            (keys w).filter (fun k => stringsHasPrefix k (uploadsFolder key)) ∧
          keys w1 = keys w)
    (hdel : ∀ k w1 u w2, c.s3.DeleteObject ⟨c.bucket, k⟩ w1 = (.ok u, w2) →
      keys w2 = (keys w1).filter (fun k1 => k1 != k)) :
    (∃ e,
        (c.s3.ListObjectsV2 ⟨c.bucket, uploadsFolder key, none, none⟩ w).1 = .error e ∧
        (removeUploadFolder c key w).out =
          .error (wrap e ("failed to list objects for prefix " ++ uploadsFolder key)) ∧
        (removeUploadFolder c key w).calls =
          [Event.listObjectsV2 ⟨c.bucket, uploadsFolder key, none, none⟩ (.error e)]) ∨
      (∃ objs,
        (c.s3.ListObjectsV2 ⟨c.bucket, uploadsFolder key, none, none⟩ w).1 = .ok objs ∧
        (((removeUploadFolder c key w).out = .ok () ∧
            (removeUploadFolder c key w).calls =
              Event.listObjectsV2 ⟨c.bucket, uploadsFolder key, none, none⟩ (.ok objs) ::
                objs.Contents.map (deletedEvent c) ∧
            ∀ k ∈ keys (removeUploadFolder c key w).world,
              stringsHasPrefix k (uploadsFolder key) = false) ∨
          (∃ pre o post e, objs.Contents = pre ++ o :: post ∧
            (removeUploadFolder c key w).out =
              .error (wrap e ("failed to delete object " ++ o.Key)) ∧
            (removeUploadFolder c key w).calls =
              Event.listObjectsV2 ⟨c.bucket, uploadsFolder key, none, none⟩ (.ok objs) ::
                (pre.map (deletedEvent c) ++
                  [Event.deleteObject { Bucket := c.bucket, Key := o.Key } (.error e)])))) := by
  rcases removeUploadFolder_trace c key w hdry with h | ⟨objs, hl, h | h⟩
  · exact Or.inl h
  · refine Or.inr ⟨objs, hl, Or.inl ⟨h.1, h.2, ?_⟩⟩
    cases hp : c.s3.ListObjectsV2 ⟨c.bucket, uploadsFolder key, none, none⟩ w with
    | mk res w1 =>
      rw [hp] at hl
      simp only at hl
      subst hl
      obtain ⟨hkeys, hsame⟩ := hlist objs w1 hp
      have hstep : removeUploadFolder c key w =
          (removeUploadFolderObjects c objs.Contents w1).after
            [Event.listObjectsV2 ⟨c.bucket, uploadsFolder key, none, none⟩ (.ok objs)] := by
        simp [removeUploadFolder, hp]
      have hok : (removeUploadFolderObjects c objs.Contents w1).out = .ok () := by
        rw [← h.1, hstep]
        rfl
      intro k hk
      rw [hstep] at hk
      obtain ⟨h1, h2⟩ := removeUploadFolderObjects_keys c keys hdry hdel objs.Contents w1 hok
        k hk
      rw [hkeys, hsame, List.mem_filter] at *
      by_contra hpre
      exact h2 ⟨h1, by simpa using hpre⟩
  · exact Or.inr ⟨objs, hl, Or.inr h⟩

theorem bucketS3_delete_keys (k : String) (w1 : Bucket) (u : Unit) (w2 : Bucket)
    (h : bucketS3.DeleteObject ⟨"registry", k⟩ w1 = (.ok u, w2)) :
    bucketKeys w2 = (bucketKeys w1).filter (fun k1 => k1 != k) := by
  simp only [bucketS3] at h
  split at h
  · simp at h
  · simp only [Prod.mk.injEq, true_and] at h
    obtain ⟨_, rfl⟩ := h
    simp [bucketKeys, List.filter_map, Function.comp_def, bne]


/-- Witness of C6: the session of four objects, looked at with an endpoint
that returns them all in one page: the listing is complete, the removal
returns no error, and no key under `repo1/_uploads/s1` is left in the bucket. -/
theorem removeUploadFolder_all_or_nothing_witness :
    (bucketCleaner false).dryRun = false ∧
      ((removeUploadFolder (bucketCleaner false) "repo1/_uploads/s1/startedat" oneSession).out
          = .ok () ∧
        ∀ k ∈ bucketKeys (removeUploadFolder (bucketCleaner false)
            "repo1/_uploads/s1/startedat" oneSession).world,
          stringsHasPrefix k (uploadsFolder "repo1/_uploads/s1/startedat") = false) := by
  have hf : uploadsFolder "repo1/_uploads/s1/startedat" = "repo1/_uploads/s1" := by decide
  have hout : (removeUploadFolder (bucketCleaner false) "repo1/_uploads/s1/startedat"
      oneSession).out = .ok () := by decide
  refine ⟨rfl, hout, ?_⟩
  rcases removeUploadFolder_all_or_nothing (bucketCleaner false) bucketKeys
      "repo1/_uploads/s1/startedat" oneSession rfl
      (by
        intro objs w1 h
        rw [hf] at h ⊢
        have hcall : bucketS3.ListObjectsV2 ⟨"registry", "repo1/_uploads/s1", none, none⟩
            oneSession =
            (.ok ⟨[⟨"repo1/_uploads/s1/data1"⟩, ⟨"repo1/_uploads/s1/data2"⟩,
              ⟨"repo1/_uploads/s1/data3"⟩, ⟨"repo1/_uploads/s1/startedat"⟩], none, false⟩,
              oneSession) := by rfl
        have h2 : (bucketCleaner false).s3.ListObjectsV2
            ⟨(bucketCleaner false).bucket, "repo1/_uploads/s1", none, none⟩ oneSession =
            bucketS3.ListObjectsV2 ⟨"registry", "repo1/_uploads/s1", none, none⟩
              oneSession := rfl
        rw [h2, hcall] at h
        simp only [Prod.mk.injEq, Except.ok.injEq] at h
        obtain ⟨rfl, rfl⟩ := h
        exact ⟨by decide, rfl⟩)
      (fun k w1 u w2 h => bucketS3_delete_keys k w1 u w2 h) with
    ⟨e, _, ho, _⟩ | ⟨objs, _, ⟨_, _, hk⟩ | ⟨pre, o, post, e, _, ho, _⟩⟩
  · rw [hout] at ho
    cases ho
  · exact hk
  · rw [hout] at ho
    cases ho

/-! ## A marker that cannot be read, next to a stale session (C10) -/

/-- C10 (evaluated on the code): the sessions `s1-x` and `s1` are both listed;
reading the marker of `s1-x` fails, the marker of `s1` is 48 hours old.
`cleanUploadFolders` goes on after the failed read and returns no error, but
the removal of `s1` lists the prefix `repo1/_uploads/s1` and issues
`DeleteObject` for the data object and the marker of `s1-x` as well: after
the failed `GetObject` for `repo1/_uploads/s1-x/startedat` the objects of that
marker's folder are deleted. -/
theorem cleanUploadFolders_deletes_folder_of_unreadable_marker :
    (cleanUploadFolders (bucketTime (newYear2024 + 48 * hour))
        { s3 := refusingReadS3 ["repo1/_uploads/s1-x/startedat"], bucket := "registry",
          dryRun := false } "repo1/" 5 siblingSessions).out = .ok () ∧
      (cleanUploadFolders (bucketTime (newYear2024 + 48 * hour))
          { s3 := refusingReadS3 ["repo1/_uploads/s1-x/startedat"], bucket := "registry",
            dryRun := false } "repo1/" 5 siblingSessions).calls.drop 1 =
        [Event.getObject ⟨"registry", "repo1/_uploads/s1-x/startedat"⟩ (.error "AccessDenied"),
         Event.getObject ⟨"registry", "repo1/_uploads/s1/startedat"⟩
           (.ok (.ok "2024-01-01T00:00:00Z")),
         Event.listObjectsV2 ⟨"registry", "repo1/_uploads/s1", none, none⟩
           (.ok ⟨[⟨"repo1/_uploads/s1-x/data"⟩, ⟨"repo1/_uploads/s1-x/startedat"⟩,
             ⟨"repo1/_uploads/s1/data"⟩, ⟨"repo1/_uploads/s1/startedat"⟩], none, false⟩),
         Event.deleteObject ⟨"registry", "repo1/_uploads/s1-x/data"⟩ (.ok ()),
         Event.deleteObject ⟨"registry", "repo1/_uploads/s1-x/startedat"⟩ (.ok ()),
         Event.deleteObject ⟨"registry", "repo1/_uploads/s1/data"⟩ (.ok ()),
         Event.deleteObject ⟨"registry", "repo1/_uploads/s1/startedat"⟩ (.ok ())] ∧
      (cleanUploadFolders (bucketTime (newYear2024 + 48 * hour))
        { s3 := refusingReadS3 ["repo1/_uploads/s1-x/startedat"], bucket := "registry",
          dryRun := false } "repo1/" 5 siblingSessions).world.objects = [] := by
  decide

end S3UploadCleaner
